import Mathlib

/-!
# Verification of the loot-to-owner assignment engine

A shallow embedding of `assign_loot_to_characters.py` (NAGD-DKP repository):
the assignment engine that reconciles a purchase ledger with a per-character
inventory snapshot and attributes each purchase row to an owning character.

Python strings are modelled as `String`, CSV rows as structures of string
fields, dictionaries as association lists (first-match lookup; the loaders
construct them with distinct keys), Python `float` costs as exact decimal
numbers wrapped in `Option` (`none` modelling the uncaught `ValueError` a
malformed literal raises), and the three per-account running counters as
total functions updated pointwise.  The top-level `runEngine` mirrors the source's `run` and
returns `none` exactly when the Python run would abort with an uncaught
exception.
-/

set_option maxRecDepth 4000

namespace DKP

/-! ## Python string primitives -/

/-- Whitespace test used by `str.strip` / `\s` in the source. -/
def isWs (c : Char) : Bool := c.isWhitespace

/-- Drop leading whitespace from a character list. -/
def dropWs (l : List Char) : List Char := l.dropWhile isWs

/-- Model of Python `str.strip()`. -/
def pyStrip (s : String) : String :=
  String.mk ((dropWs ((dropWs s.toList.reverse).reverse)))

/-- Model of Python `a or b` on strings (empty string is falsy). -/
def pyOrS (a b : String) : String := if a = "" then b else a

/-- Model of `s or None` turning an empty string into `None`. -/
def strToOpt (s : String) : Option String := if s = "" then none else some s

/-- Truthiness of an `Optional[str]`: `None` and `""` are falsy. -/
def optTruthy (o : Option String) : Bool := (o.getD "") ≠ ""

/-- Split a lower-cased, stripped character list into maximal
non-whitespace runs (the `re.split(r"\s+", ...)` step). -/
def wordsAux : List Char → List Char → List String
  | [], cur => if cur.isEmpty then [] else [String.mk cur.reverse]
  | c :: rest, cur =>
    if isWs c then
      if cur.isEmpty then wordsAux rest []
      else String.mk cur.reverse :: wordsAux rest []
    else wordsAux rest (c :: cur)

/-- `normalize_item_name`: lowercase, strip, collapse internal whitespace. -/
def normalize_item_name (s : String) : String :=
  String.intercalate " " (wordsAux ((pyStrip s).toList.map Char.toLower) [])

/-- Python string `<` (lexicographic on code points), on character lists. -/
def strLtL : List Char → List Char → Bool
  | [], [] => false
  | [], _ :: _ => true
  | _ :: _, [] => false
  | a :: as, b :: bs => if a.toNat < b.toNat then true else if b.toNat < a.toNat then false else strLtL as bs

/-- Python string `<` (lexicographic on code points). -/
def strLtPy (a b : String) : Bool := strLtL a.toList b.toList

/-- Does `pat` occur as a contiguous run inside `l`? (the Python `in` test). -/
def subRun (pat : List Char) : List Char → Bool
  | [] => pat.isEmpty
  | c :: rest => (pat.isPrefixOf (c :: rest)) || subRun pat rest

/-- Python `needle in haystack` on strings. -/
def strContains (haystack needle : String) : Bool :=
  needle.toList.isEmpty || subRun needle.toList haystack.toList

/-- Model of Python `str.lower()` (character-wise). -/
def pyLower (s : String) : String := String.mk (s.toList.map Char.toLower)

/-- Model of Python `str.isdigit` (restricted to ASCII digits). -/
def pyIsdigit (s : String) : Bool := s ≠ "" && s.toList.all Char.isDigit

/-! ## Numeric parsing

Costs are modelled as exact decimal numbers `man / 10 ^ exp` (the source
uses Python floats only to accumulate and compare DKP spend; exact decimal
arithmetic is the intended semantics of those comparisons). -/

/-- An exact decimal number `man / 10 ^ exp`. -/
structure DecNum where
  man : Int
  exp : Nat
deriving Repr, DecidableEq, Inhabited

/-- Value equality of decimal numbers (Python `==` on floats). -/
def DecNum.beqv (a b : DecNum) : Bool := a.man * (10 : Int) ^ b.exp = b.man * (10 : Int) ^ a.exp

/-- Value comparison of decimal numbers (Python `<` on floats). -/
def DecNum.bltv (a b : DecNum) : Bool := a.man * (10 : Int) ^ b.exp < b.man * (10 : Int) ^ a.exp

/-- Addition of decimal numbers (aligning exponents). -/
def DecNum.add (a b : DecNum) : DecNum :=
  if a.exp ≥ b.exp then ⟨a.man + b.man * (10 : Int) ^ (a.exp - b.exp), a.exp⟩
  else ⟨a.man * (10 : Int) ^ (b.exp - a.exp) + b.man, b.exp⟩

/-- Negation. -/
def DecNum.negv (a : DecNum) : DecNum := ⟨-a.man, a.exp⟩

/-- Zero. -/
def DecNum.zero : DecNum := ⟨0, 0⟩

/-- Numeric value of a digit run. -/
def digitsVal (l : List Char) : Nat := l.foldl (fun a c => a * 10 + (c.toNat - 48)) 0

/-- Split a character list at the first `'.'`. -/
def splitDot : List Char → (List Char × Option (List Char))
  | [] => ([], none)
  | c :: rest =>
    if c = '.' then ([], some rest)
    else
      let (pre, post) := splitDot rest
      (c :: pre, post)

/-- Parse an unsigned decimal literal (digits, optional single dot). -/
def parseDec (l : List Char) : Option DecNum :=
  match splitDot l with
  | (ip, none) =>
    if ip ≠ [] && ip.all Char.isDigit then some ⟨(digitsVal ip : Int), 0⟩ else none
  | (ip, some fp) =>
    if fp.elem '.' then none
    else if (ip ≠ [] || fp ≠ []) && ip.all Char.isDigit && fp.all Char.isDigit then
      some ⟨(digitsVal ip : Int) * (10 : Int) ^ fp.length + (digitsVal fp : Int), fp.length⟩
    else none

/-- Model of Python `float(s)` on a string: strip, optional sign, decimal
literal; `none` models the `ValueError` raised on anything else. -/
def pyFloat (s : String) : Option DecNum :=
  match (pyStrip s).toList with
  | [] => none
  | '+' :: rest => parseDec rest
  | '-' :: rest => (parseDec rest).map DecNum.negv
  | l => parseDec l

/-- `float(row.get("cost") or 0) or 0` — an empty cost string is falsy and
becomes `0`; a non-empty string goes through `float` (which may raise). -/
def pyCost (s : String) : Option DecNum := if s = "" then some DecNum.zero else pyFloat s

/-- `int((x or "").strip() or 0)` with the `except` clause of the source
mapping parse failures to `0` (used for inventory slot ids). -/
def pyIntOr0 (s : String) : Int :=
  let t := pyStrip s
  if t = "" then 0
  else match t.toList with
    | '-' :: rest => if rest ≠ [] && rest.all Char.isDigit then -(digitsVal rest : Int) else 0
    | '+' :: rest => if rest ≠ [] && rest.all Char.isDigit then (digitsVal rest : Int) else 0
    | l => if l.all Char.isDigit then (digitsVal l : Int) else 0

/-! ## Dictionary helpers (Python dicts as association lists) -/

/-- `d.get(k)`: first-match lookup. -/
def lookupD {α : Type} (d : List (String × α)) (k : String) : Option α :=
  (d.find? (fun p => p.1 = k)).map (·.2)

/-- `d[k] = d.get(k, 0) + 1` keeping dict insertion order. -/
def dictIncr : List (String × Nat) → String → List (String × Nat)
  | [], k => [(k, 1)]
  | (k', v) :: rest, k =>
    if k' = k then (k', v + 1) :: rest else (k', v) :: dictIncr rest k

/-- `d[k] = v` keeping dict insertion order (overwrite in place or append). -/
def dictSet : List (String × String) → String → String → List (String × String)
  | [], k, v => [(k, v)]
  | (k', v') :: rest, k, v =>
    if k' = k then (k', v) :: rest else (k', v') :: dictSet rest k v

/-- `d.setdefault(k, v)`. -/
def dictSetD (d : List (String × String)) (k v : String) : List (String × String) :=
  if (lookupD d k).isSome then d else d ++ [(k, v)]

/-- Pointwise update of a total-function map. -/
def updF {κ ν : Type} [DecidableEq κ] (f : κ → ν) (k : κ) (v : ν) : κ → ν :=
  fun x => if x = k then v else f x

/-- Deduplicate keeping first occurrences, skipping keys already `seen`. -/
def dedupAux (seen : List String) : List String → List String
  | [] => []
  | k :: rest => if seen.elem k then dedupAux seen rest else k :: dedupAux (k :: seen) rest

/-- Key list deduplicated in first-occurrence order (Python dict key order
for a `defaultdict` filled by appending). -/
def dedupKeepFirst (l : List String) : List String := dedupAux [] l

/-! ## Static tables from the source -/

/-- `ELEMENTAL_ARMOR_TYPE`: elemental armor item id → armor type. -/
def ELEMENTAL_ARMOR_TYPE : List (String × String) :=
  ((List.range 7).map (fun k => (toString (16362 + k), "chain"))) ++
  ((List.range 7).map (fun k => (toString (16369 + k), "plate"))) ++
  ((List.range 7).map (fun k => (toString (16376 + k), "leather"))) ++
  ((List.range 7).map (fun k => (toString (16383 + k), "silk"))) ++
  [("16693", "silk")]

/-- `CLASS_ARMOR_TYPE`: class short name → armor type. -/
def CLASS_ARMOR_TYPE : List (String × String) :=
  [("rog", "chain"), ("shm", "chain"), ("rng", "chain"),
   ("brd", "plate"), ("clr", "plate"), ("war", "plate"), ("pal", "plate"), ("shd", "plate"),
   ("mnk", "leather"), ("bst", "leather"), ("dru", "leather"),
   ("nec", "silk"), ("mag", "silk"), ("wiz", "silk"), ("enc", "silk")]

/-- `ELEMENTAL_SLOT_KEYWORDS` in source (dict) insertion order. -/
def ELEMENTAL_SLOT_KEYWORDS : List (String × List Int) :=
  [("head", [2]), ("helm", [2]), ("turban", [2]), ("coif", [2]),
   ("neck", [5]), ("gorget", [5]),
   ("arms", [7]), ("sleeve", [7]), ("arm", [7]),
   ("back", [8]), ("cloak", [8]),
   ("bracer", [9, 10]), ("wrist", [9, 10]), ("bracelet", [9, 10]),
   ("hands", [12]), ("hand", [12]), ("glove", [12]), ("gauntlet", [12]),
   ("chest", [17]), ("tunic", [17]), ("breast", [17]), ("breastplate", [17]),
   ("legs", [18]), ("leg", [18]), ("greave", [18]), ("pant", [18]),
   ("feet", [19]), ("boot", [19]),
   ("waist", [20]), ("girdle", [20])]

/-- `LOOT_TO_MAGELO_EQUIVALENTS`. -/
def LOOT_TO_MAGELO_EQUIVALENTS : List (String × List String) :=
  [("soul essence of aten ha ra", ["talisman of vah kerrath"])]

/-- `parse_elemental_loot_slot_and_armor` on an already-normalized name. -/
def parseElemN (norm : String) : Option String × Option (List Int) :=
  if ¬ strContains norm "elemental" then (none, none)
  else
    let armor := (["silk", "chain", "plate", "leather"].find? (fun a => strContains norm a))
    let slots := ((ELEMENTAL_SLOT_KEYWORDS.find? (fun p => strContains norm p.1)).map (·.2))
    (armor, slots)

/-- `parse_elemental_loot_slot_and_armor(item_name)`. -/
def parse_elemental_loot_slot_and_armor (item_name : String) : Option String × Option (List Int) :=
  parseElemN (normalize_item_name item_name)

/-! ## Data model -/

/-- One inventory row from `TAKP_character_inventory.txt` (already split
and stripped by `load_magelo_inventory`). -/
structure InvItem where
  item_id : String
  item_name : String
  slot_id : String
deriving Repr, DecidableEq, Inhabited

/-- One ledger row of `raid_loot.csv` as produced by `load_raid_loot`
(missing columns read back as `""`; `id` kept optional to model its
round-tripping when present). -/
structure LootRow where
  id : Option String := none
  raid_id : String := ""
  event_id : String := ""
  item_name : String := ""
  char_id : String := ""
  character_name : String := ""
  cost : String := ""
  assigned_char_id : String := ""
  assigned_character_name : String := ""
  assigned_via_magelo : String := ""
  manual_assignment : String := ""
  manual : String := ""
deriving Repr, DecidableEq, Inhabited

/-- One row of `character_loot_assignment_counts.csv`. -/
structure CountRow where
  char_id : String
  character_name : String
  items_assigned : Nat
deriving Repr, DecidableEq, Inhabited

/-- All in-memory inputs of `run` after the load_* functions: the DKP
tables, the Magelo dump and the elemental reference data. -/
structure RunCtx where
  raids : List (String × String) := []                       -- raid_id → date_iso
  char_to_account : List (String × String) := []             -- char_id → account_id
  account_to_chars : List (String × List String) := []       -- account_id → member char_ids
  name_to_char : List (String × String) := []                -- name (raw and normalized) → char_id
  dkp_char_id_to_name : List (String × String) := []         -- char_id → display name
  char_id_to_class : List (String × String) := []            -- char_id → class short name
  magelo_names_to_id : List (String × String) := []          -- magelo name → magelo char id
  magelo_id_to_name : List (String × String) := []           -- magelo char id → name
  magelo_inv : List (String × List InvItem) := []            -- magelo char id → held items
  elemental_ids : List String := []                          -- elemental_armor.json item ids
  dkp_elemental_map : List (String × List (String × String)) := []  -- norm name → class → item id
  elemental_names_json : List String := []                   -- norm names from the json map
  elemental_extra : List String := []                        -- --elemental-source-name values
deriving Repr, Inhabited

/-! ## Derived reference data (built once inside `run`) -/

/-- `build_elemental_item_names`: normalized names of inventory items whose
id is in the elemental catalog, plus explicitly supplied extra names. -/
def buildElementalItemNames (ctx : RunCtx) : List String :=
  (ctx.magelo_inv.flatMap (fun p =>
    p.2.filterMap (fun it =>
      if ctx.elemental_ids.elem (pyStrip it.item_id) then
        let name := pyStrip it.item_name
        if name ≠ "" then some (normalize_item_name name) else none
      else none))) ++
  (ctx.elemental_extra.filterMap (fun n =>
    if pyStrip n ≠ "" then some (normalize_item_name (pyStrip n)) else none))

/-- `elemental_source_norm` as computed in `run`: names derived from the
Magelo dump union the names listed in `dkp_elemental_to_magelo.json`. -/
def elementalSourceNorm (ctx : RunCtx) : List String :=
  buildElementalItemNames ctx ++ ctx.elemental_names_json

/-- `dkp_to_magelo_id`: map DKP char_id → Magelo char id by display name. -/
def dkpToMagelo (ctx : RunCtx) : List (String × String) :=
  ctx.dkp_char_id_to_name.foldl
    (fun acc p =>
      let m := pyOrS ((lookupD ctx.magelo_names_to_id p.2).getD "")
                     ((lookupD ctx.magelo_names_to_id (normalize_item_name p.2)).getD "")
      if m ≠ "" then dictSet acc p.1 m else acc) []

/-! ## Inventory matching (`which_toons_have_item` / `item_count_per_toon`) -/

/-- Per-item condition of the elemental fallback branch (no json lookup):
the item id is in the elemental family, it passes the optional slot filter
and the armor-type tests. -/
def elemFallbackMatch (ctx : RunCtx) (reqArmor : Option String) (reqSlots : Option (List Int))
    (allowedArmor : Option String) (it : InvItem) : Bool :=
  let invId := pyStrip it.item_id
  if !(ctx.elemental_ids.elem invId) then false
  else
    let slotFilter := reqSlots.isSome && (reqSlots.getD []) ≠ []
    if slotFilter && !((reqSlots.getD []).elem (pyIntOr0 it.slot_id)) then false
    else
      let itemArmor := lookupD ELEMENTAL_ARMOR_TYPE invId
      match reqArmor with
      | some ra => itemArmor = some ra
      | none => ¬ (itemArmor.isSome && allowedArmor.isSome && itemArmor ≠ allowedArmor)

/-- Per-item condition of the json (`dkp_elemental_to_magelo`) branch:
the item id equals the class-specific Magelo id for this toon's class. -/
def jsonMatch (byClass : List (String × String)) (classShort : String) (it : InvItem) : Bool :=
  match lookupD byClass classShort with
  | some e => e ≠ "" && pyStrip it.item_id = e
  | none => false

/-- Per-item condition of the plain exact-name branch. -/
def nameMatch (names : List String) (it : InvItem) : Bool :=
  names.elem (normalize_item_name (pyStrip it.item_name))

/-- The normalized names that count as "having" the loot: the loot name
itself plus any `LOOT_TO_MAGELO_EQUIVALENTS`. -/
def mageloNamesToMatch (normLoot : String) : List String :=
  normLoot :: ((lookupD LOOT_TO_MAGELO_EQUIVALENTS normLoot).getD [])

/-- The Magelo inventory of a DKP char id: cross-referenced id, then items. -/
def itemsOfToon (ctx : RunCtx) (cid : String) : List InvItem :=
  let mageloId := pyOrS ((lookupD (dkpToMagelo ctx) cid).getD "") cid
  (lookupD ctx.magelo_inv mageloId).getD []

/-- Class short name of a DKP char id (lower-cased), and the armor type
that class can wear (`None` when the class table is absent/empty). -/
def toonClassArmor (ctx : RunCtx) (cid : String) : String × Option String :=
  let classShort := pyLower ((lookupD ctx.char_id_to_class cid).getD "")
  (classShort, if ctx.char_id_to_class ≠ [] then lookupD CLASS_ARMOR_TYPE classShort else none)

/-- Loop body of `which_toons_have_item` for one toon: does any inventory
item match this (already normalized) loot name under the given rule? -/
def toonHasItemN (ctx : RunCtx) (normLoot : String) (reqArmor : Option String)
    (reqSlots : Option (List Int)) (lookup : Option (List (String × String)))
    (cid : String) : Bool :=
  let isElem := (elementalSourceNorm ctx).elem normLoot
  let useJson := lookup.isSome && isElem
  let byClass := lookup.getD []
  let items := itemsOfToon ctx cid
  let (classShort, allowedArmor) := toonClassArmor ctx cid
  items.any (fun it =>
    if isElem then
      if useJson then jsonMatch byClass classShort it
      else elemFallbackMatch ctx reqArmor reqSlots allowedArmor it
    else nameMatch (mageloNamesToMatch normLoot) it)

/-- `which_toons_have_item` on an already normalized loot name. -/
def whichToonsN (ctx : RunCtx) (normLoot : String) (reqArmor : Option String)
    (reqSlots : Option (List Int)) (lookup : Option (List (String × String)))
    (toons : List String) : List String :=
  toons.filter (toonHasItemN ctx normLoot reqArmor reqSlots lookup)

/-- `which_toons_have_item(item_name, account_char_ids, ...)`. -/
def which_toons_have_item (ctx : RunCtx) (item_name : String) (reqArmor : Option String)
    (reqSlots : Option (List Int)) (lookup : Option (List (String × String)))
    (toons : List String) : List String :=
  whichToonsN ctx (normalize_item_name item_name) reqArmor reqSlots lookup toons

/-- Loop body of `item_count_per_toon` for one toon: how many copies of
this loot the toon holds under the given rule.  Note the elemental
fallback branch of the source sets `count = 1` and breaks. -/
def toonCountN (ctx : RunCtx) (normLoot : String) (reqArmor : Option String)
    (reqSlots : Option (List Int)) (lookup : Option (List (String × String)))
    (cid : String) : Nat :=
  let isElem := (elementalSourceNorm ctx).elem normLoot
  let useJson := lookup.isSome && isElem
  let byClass := lookup.getD []
  let items := itemsOfToon ctx cid
  if isElem then
    let (classShort, allowedArmor) := toonClassArmor ctx cid
    if useJson then items.countP (fun it => jsonMatch byClass classShort it)
    else if items.any (fun it => elemFallbackMatch ctx reqArmor reqSlots allowedArmor it) then 1 else 0
  else
    items.countP (fun it => nameMatch (mageloNamesToMatch normLoot) it)

/-- `item_count_per_toon` on an already normalized loot name. -/
def itemCountPerToonN (ctx : RunCtx) (normLoot : String) (reqArmor : Option String)
    (reqSlots : Option (List Int)) (lookup : Option (List (String × String)))
    (toons : List String) : List (String × Nat) :=
  toons.map (fun cid => (cid, toonCountN ctx normLoot reqArmor reqSlots lookup cid))

/-- `item_count_per_toon(item_name, account_char_ids, ...)`. -/
def item_count_per_toon (ctx : RunCtx) (item_name : String) (reqArmor : Option String)
    (reqSlots : Option (List Int)) (lookup : Option (List (String × String)))
    (toons : List String) : List (String × Nat) :=
  itemCountPerToonN ctx (normalize_item_name item_name) reqArmor reqSlots lookup toons

/-! ## The assignment engine (`run`) -/

/-- The per-row assignment state: the three parallel arrays
`assigned_char_id`, `assigned_character_name`, `assigned_via_magelo`. -/
structure AState where
  cid : Option String := none
  name : Option String := none
  viaMagelo : Bool := false
deriving Repr, DecidableEq, Inhabited

/-- `resolve_buyer_account`: account id of a loot row's buyer, or `none`. -/
def resolve_buyer_account (ctx : RunCtx) (row : LootRow) : Option String :=
  let cid := pyStrip row.char_id
  let name := pyStrip row.character_name
  if cid ≠ "" && (lookupD ctx.char_to_account cid).isSome then lookupD ctx.char_to_account cid
  else if name ≠ "" then
    let cidFromName := pyOrS ((lookupD ctx.name_to_char name).getD "")
                             ((lookupD ctx.name_to_char (normalize_item_name name)).getD "")
    if cidFromName ≠ "" && (lookupD ctx.char_to_account cidFromName).isSome then
      lookupD ctx.char_to_account cidFromName
    else none
  else none

/-- The `loot_by_account` bucket key of row `i` (lines 529-542 of the
source): the buyer's account, else the buyer's char id as a fake
single-toon account, else a char id resolved from the buyer name, else
the shared `"_unknown"` bucket. -/
def groupKey (ctx : RunCtx) (row : LootRow) : String :=
  match resolve_buyer_account ctx row with
  | some acc => acc
  | none =>
    let cid := pyStrip row.char_id
    if cid ≠ "" then cid
    else
      let name := pyStrip row.character_name
      if name ≠ "" && (lookupD ctx.name_to_char name).isSome then
        (lookupD ctx.name_to_char name).getD ""
      else "_unknown"

/-- Account member list for a bucket key: real accounts use the directory;
a fake key becomes a single-toon account, `"_unknown"` stays empty. -/
def toonsFor (ctx : RunCtx) (acc : String) : List String :=
  let t := (lookupD ctx.account_to_chars acc).getD []
  if t = [] then (if acc = "_unknown" then [] else [acc]) else t

/-- `loot_sort_key`: `(raid date, raid_id, event_id, original index)`. -/
def lootSortKey (ctx : RunCtx) (rows : List LootRow) (i : Nat) : String × String × String × Nat :=
  let row := rows.getD i default
  ((lookupD ctx.raids row.raid_id).getD "", row.raid_id, row.event_id, i)

/-- Ascending comparison of two sort keys (Python tuple `<` with string
code-point comparison). -/
def keyLt (a b : String × String × String × Nat) : Bool :=
  if a.1 ≠ b.1 then strLtPy a.1 b.1
  else if a.2.1 ≠ b.2.1 then strLtPy a.2.1 b.2.1
  else if a.2.2.1 ≠ b.2.2.1 then strLtPy a.2.2.1 b.2.2.1
  else a.2.2.2 < b.2.2.2

/-- Stable insertion of `x` into an ascending list (elements `y` with
`¬ keyLt x y` stay before `x`). -/
def insSorted (key : Nat → String × String × String × Nat) (x : Nat) : List Nat → List Nat
  | [] => [x]
  | y :: ys => if keyLt (key x) (key y) then x :: y :: ys else y :: insSorted key x ys

/-- `sorted(indices, key=loot_sort_key)` (keys are distinct because the
original index is part of the key, so any correct sort agrees). -/
def sortIndices (key : Nat → String × String × String × Nat) (l : List Nat) : List Nat :=
  l.foldl (fun acc x => insSorted key x acc) []

/-- `is_explicit_manual`: the `manual_assignment` / `manual` column marks
the row as set by hand. -/
def isExplicitManual (row : LootRow) : Bool :=
  let manualCol := pyLower (pyStrip (pyOrS row.manual_assignment row.manual))
  manualCol = "1" || manualCol = "true" || manualCol = "yes"

/-- Preprocessing pass (lines 553-581): initial assignment triple for a
row, plus whether the row is in `manual_only_indices`. -/
def preprocessRow (clear : Bool) (row : LootRow) : AState × Bool :=
  let ac := pyStrip row.assigned_char_id
  let an := pyStrip row.assigned_character_name
  let viaRaw := pyStrip row.assigned_via_magelo
  let hasExisting := ac ≠ "" || an ≠ ""
  let isLegacyManual := viaRaw = "0"
  if isExplicitManual row then
    (⟨strToOpt ac, strToOpt an, false⟩, true)
  else if isLegacyManual && hasExisting && !clear then
    (⟨strToOpt ac, strToOpt an, viaRaw = "1"⟩, true)
  else if hasExisting && !clear then
    (⟨strToOpt ac, strToOpt an, viaRaw = "1"⟩, false)
  else
    (⟨none, none, false⟩, false)

/-- The initial assignment array. -/
def initAssign (clear : Bool) (rows : List LootRow) : Nat → AState :=
  fun i => match rows.get? i with
  | some r => (preprocessRow clear r).1
  | none => default

/-- Membership in `manual_only_indices`. -/
def manualOnly (clear : Bool) (rows : List LootRow) : Nat → Bool :=
  fun i => match rows.get? i with
  | some r => (preprocessRow clear r).2
  | none => false

/-- Running state while processing one account: the global assignment
arrays plus the three per-account counters (reset between accounts). -/
structure AccSt where
  asg : Nat → AState
  dkp : String → DecNum
  cnt : String → Nat
  icnt : String → String → Nat

/-- The display name recorded on a fresh assignment (lines 662/682). -/
def assignName (ctx : RunCtx) (cid : String) : String :=
  pyOrS ((lookupD ctx.dkp_char_id_to_name cid).getD "")
    (pyOrS ((lookupD ctx.magelo_id_to_name ((lookupD (dkpToMagelo ctx) cid).getD "")).getD "") cid)

/-- `max(under_cap, key=lambda c: (dkp_spent, count, c))`: Python `max`
keeps the first of several maxima, and compares key tuples
lexicographically. -/
def candKeyGt (dkp : String → DecNum) (cnt : String → Nat) (a b : String) : Bool :=
  if ¬ DecNum.beqv (dkp a) (dkp b) then DecNum.bltv (dkp b) (dkp a)
  else if cnt a ≠ cnt b then decide (cnt b < cnt a)
  else strLtPy b a

/-- `max` with a strictly-greater test (first maximum wins). -/
def pymaxBy (gt : String → String → Bool) : List String → Option String
  | [] => none
  | x :: xs => some (xs.foldl (fun best c => if gt c best then c else best) x)

/-- The candidate chosen among several under-cap candidates. -/
def chooseBest (dkp : String → DecNum) (cnt : String → Nat) (l : List String) : Option String :=
  pymaxBy (candKeyGt dkp cnt) l

/-- The `(required_armor_type, required_slot_ids)` pair the engine derives
for a normalized item name (lines 616-620). -/
def reqFor (ctx : RunCtx) (norm : String) : Option String × Option (List Int) :=
  if (lookupD ctx.dkp_elemental_map norm).isNone && (elementalSourceNorm ctx).elem norm then
    parseElemN norm
  else (none, none)

/-- The per-toon supply cap the engine computes for a normalized item name
(the `magelo_count_per_toon` entry of one toon). -/
def capFor (ctx : RunCtx) (norm c : String) : Nat :=
  toonCountN ctx norm (reqFor ctx norm).1 (reqFor ctx norm).2 (lookupD ctx.dkp_elemental_map norm) c

/-- The decision logic of lines 615-685 for a row that needs one: `none`
means "leave unassigned"; `some c` means "assign to `c`".  `norm` is the
normalized item name of the row. -/
def decideChoice (ctx : RunCtx) (toons : List String) (dkp : String → DecNum) (cnt : String → Nat)
    (icnt : String → String → Nat) (norm : String) : Option String :=
  let lookup := lookupD ctx.dkp_elemental_map norm
  let (reqArmor, reqSlots) := reqFor ctx norm
  let counts := itemCountPerToonN ctx norm reqArmor reqSlots lookup toons
  if toons = [] then none
  else
    let candidates := whichToonsN ctx norm reqArmor reqSlots lookup toons
    let underCap := candidates.filter
      (fun c => (lookupD counts c).getD 0 > 0 && icnt c norm < (lookupD counts c).getD 0)
    match candidates with
    | [] => none
    | [c] =>
      let cap := (lookupD counts c).getD 0
      if cap > 0 && icnt c norm < cap then some c else none
    | _ :: _ :: _ =>
      match underCap with
      | [] => none
      | _ :: _ => chooseBest dkp cnt underCap

/-- Folding a preserved prior assignment into the per-account counters
(lines 600-607): `count_per_char`, `dkp_spent_per_char` and — only for a
non-empty normalized item name — `item_count_per_char`. -/
def foldStep (st : AccSt) (cid : String) (cost : DecNum) (norm : String) : AccSt :=
  { st with
    cnt := updF st.cnt cid (st.cnt cid + 1)
    dkp := updF st.dkp cid (DecNum.add (st.dkp cid) cost)
    icnt := if norm ≠ "" then
        updF st.icnt cid (updF (st.icnt cid) norm (st.icnt cid norm + 1))
      else st.icnt }

/-- Recording a fresh machine assignment (lines 660-665 / 679-685): the
assignment arrays at `idx` and all three counters. -/
def assignStep (st : AccSt) (idx : Nat) (c : String) (name : String) (cost : DecNum)
    (norm : String) : AccSt :=
  { asg := updF st.asg idx ⟨some c, some name, true⟩
    cnt := updF st.cnt c (st.cnt c + 1)
    dkp := updF st.dkp c (DecNum.add (st.dkp c) cost)
    icnt := updF st.icnt c (updF (st.icnt c) norm (st.icnt c norm + 1)) }

/-- The loop body of lines 595-685 for one index of one account:
skip manual rows; fold a preserved prior assignment into the counters;
otherwise parse the cost (aborting the run on a malformed value, like the
uncaught `ValueError` in the source) and decide the row. -/
def processIdx (ctx : RunCtx) (clear : Bool) (rows : List LootRow) (manual : Nat → Bool)
    (toons : List String) (st : AccSt) (idx : Nat) : Option AccSt :=
  if manual idx then some st
  else
    let a := st.asg idx
    let row := rows.getD idx default
    if !clear && (optTruthy a.cid || optTruthy a.name) then
      let cidExisting := a.cid.getD ""
      if cidExisting = "" then some st
      else
        (pyCost row.cost).map (fun cost =>
          foldStep st cidExisting cost (normalize_item_name row.item_name))
    else
      (pyCost row.cost).map (fun cost =>
        let norm := normalize_item_name (pyStrip row.item_name)
        match decideChoice ctx toons st.dkp st.cnt st.icnt norm with
        | none => st
        | some c => assignStep st idx c (assignName ctx c) cost norm)

/-- Process one account bucket: fresh counters, rows in raid order. -/
def processGroup (ctx : RunCtx) (clear : Bool) (rows : List LootRow) (manual : Nat → Bool)
    (toons : List String) (asg : Nat → AState) (idxs : List Nat) : Option (Nat → AState) :=
  (idxs.foldlM (processIdx ctx clear rows manual toons) ⟨asg, fun _ => DecNum.zero, fun _ => 0, fun _ _ => 0⟩).map
    AccSt.asg

/-- Indices (in input order) of the bucket with key `k`. -/
def groupIdxs (ctx : RunCtx) (rows : List LootRow) (k : String) : List Nat :=
  (List.range rows.length).filter (fun i => groupKey ctx (rows.getD i default) = k)

/-- Bucket keys in first-occurrence order. -/
def accountKeys (ctx : RunCtx) (rows : List LootRow) : List String :=
  dedupKeepFirst ((List.range rows.length).map (fun i => groupKey ctx (rows.getD i default)))

/-- The name-resolution pass of lines 687-700 for one row's state. -/
def resolveOne (ctx : RunCtx) (a : AState) : AState :=
  if optTruthy a.name then a
  else
    let cid := a.cid.getD ""
    if cid = "" then a
    else
      let n1 := pyOrS ((lookupD ctx.dkp_char_id_to_name cid).getD "")
        (pyOrS ((lookupD ctx.magelo_id_to_name ((lookupD (dkpToMagelo ctx) cid).getD "")).getD "")
               ((lookupD ctx.magelo_id_to_name cid).getD ""))
      let n2 := if n1 ≠ "" then n1
        else ((ctx.name_to_char.find? (fun p => p.2 = cid && p.1 ≠ "" && ¬ pyIsdigit p.1)).map (·.1)).getD ""
      { a with name := some (if n2 ≠ "" then n2 else cid) }

/-- Re-serialized output row (lines 713-717). -/
def outRow (a : AState) (r : LootRow) : LootRow :=
  { r with
    assigned_char_id := a.cid.getD ""
    assigned_character_name := a.name.getD ""
    assigned_via_magelo := if a.viaMagelo then "1" else "0" }

/-- The output ledger: one row per input row, in input order. -/
def buildOutputAux (asg : Nat → AState) : Nat → List LootRow → List LootRow
  | _, [] => []
  | i, r :: rs => outRow (asg i) r :: buildOutputAux asg (i + 1) rs

/-- The output ledger of `run`. -/
def buildOutput (asg : Nat → AState) (rows : List LootRow) : List LootRow :=
  buildOutputAux asg 0 rows

/-- `count_global`: per-char assignment counts in first-assignment order. -/
def countGlobal (rows : List LootRow) (asg : Nat → AState) : List (String × Nat) :=
  (List.range rows.length).foldl
    (fun acc i => if optTruthy (asg i).cid then dictIncr acc ((asg i).cid.getD "") else acc) []

/-- `name_by_cid` (lines 722-734). -/
def nameByCid (ctx : RunCtx) (rows : List LootRow) (asg : Nat → AState) : List (String × String) :=
  let d0 := (List.range rows.length).foldl
    (fun acc i =>
      if optTruthy (asg i).cid && optTruthy (asg i).name then
        dictSet acc ((asg i).cid.getD "") ((asg i).name.getD "")
      else acc) []
  let d1 := ctx.dkp_char_id_to_name.foldl (fun acc p => dictSetD acc p.1 p.2) d0
  ctx.name_to_char.foldl
    (fun acc p => if p.1 ≠ "" && ¬ pyIsdigit p.1 then dictSetD acc p.2 p.1 else acc) d1

/-- Stable descending-by-count sort (`sorted(..., key=lambda x: -x[1])`). -/
def insByCount (x : String × Nat) : List (String × Nat) → List (String × Nat)
  | [] => [x]
  | y :: ys => if y.2 ≥ x.2 then y :: insByCount x ys else x :: y :: ys

/-- Stable sort of the count dict items by descending count. -/
def sortByCountDesc (l : List (String × Nat)) : List (String × Nat) :=
  l.foldl (fun acc x => insByCount x acc) []

/-- The per-character summary rows of `run`. -/
def buildCounts (ctx : RunCtx) (rows : List LootRow) (asg : Nat → AState) : List CountRow :=
  let nbc := nameByCid ctx rows asg
  (sortByCountDesc (countGlobal rows asg)).map
    (fun p => ⟨p.1, (lookupD nbc p.1).getD p.1, p.2⟩)

/-- The whole of `run` after loading: preprocessing pass, per-account
allocation in bucket order, name resolution, output ledger and summary.
`none` models an uncaught exception (malformed cost) aborting the run. -/
def runEngine (ctx : RunCtx) (clear : Bool) (rows : List LootRow) :
    Option (List LootRow × List CountRow) :=
  let manual := manualOnly clear rows
  let key := lootSortKey ctx rows
  (accountKeys ctx rows).foldlM
    (fun asg k =>
      processGroup ctx clear rows manual (toonsFor ctx k) asg
        (sortIndices key (groupIdxs ctx rows k)))
    (initAssign clear rows)
  |>.map (fun asgF =>
    let asgR := fun i => resolveOne ctx (asgF i)
    (buildOutput asgR rows, buildCounts ctx rows asgR))

/-- `main` plus `load_raid_loot`'s missing-file behaviour: the Magelo
character and inventory files are checked before anything runs (exit code
1, `Sum.inl`), while a missing ledger is silently read as the empty list
and the run still executes and writes its outputs (`Sum.inr`). -/
def mainModel (charFileExists invFileExists : Bool) (ledger : Option (List LootRow))
    (ctx : RunCtx) (clear : Bool) : Sum Nat (Option (List LootRow × List CountRow)) :=
  if charFileExists = false then Sum.inl 1
  else if invFileExists = false then Sum.inl 1
  else Sum.inr (runEngine ctx clear (ledger.getD []))

/-! ## Concrete scenarios used by the claim theorems -/

/-- Account `Y` with two members who each hold one `Cloak of Embers`
(Scenario B of the spec). -/
def ctxB : RunCtx :=
  { char_to_account := [("1", "Y"), ("2", "Y")]
    account_to_chars := [("Y", ["1", "2"])]
    dkp_char_id_to_name := [("1", "Done"), ("2", "Dtwo")]
    name_to_char := [("Done", "1"), ("done", "1"), ("Dtwo", "2"), ("dtwo", "2")]
    magelo_inv := [("1", [⟨"101", "Cloak of Embers", "8"⟩]),
                   ("2", [⟨"101", "Cloak of Embers", "8"⟩])] }

/-- Two purchases of the cloak for account `Y`, in raid order. -/
def rowsB : List LootRow :=
  [{ raid_id := "r1", event_id := "e1", item_name := "Cloak of Embers",
     char_id := "1", character_name := "Done", cost := "10" },
   { raid_id := "r1", event_id := "e2", item_name := "Cloak of Embers",
     char_id := "1", character_name := "Done", cost := "10" }]

/-- A ledger holding one manually assigned row whose `assigned_via_magelo`
flag is `1` in the input. -/
def rowsManual : List LootRow :=
  [{ raid_id := "r1", event_id := "e1", item_name := "Cloak of Embers",
     char_id := "1", character_name := "Done", cost := "10",
     assigned_char_id := "7", assigned_character_name := "Bob",
     assigned_via_magelo := "1", manual_assignment := "1" }]

/-- A ledger with a single manual row naming a character who holds zero
copies of the item (the inventory snapshot is empty). -/
def rowsManualOverCap : List LootRow :=
  [{ raid_id := "r1", event_id := "e1", item_name := "Cloak of Embers",
     char_id := "1", character_name := "Done", cost := "10",
     assigned_char_id := "1", assigned_character_name := "Done",
     assigned_via_magelo := "0", manual_assignment := "1" }]

/-- Single-member account `A` whose member holds one cloak. -/
def ctxA : RunCtx :=
  { char_to_account := [("1", "A")]
    account_to_chars := [("A", ["1"])]
    dkp_char_id_to_name := [("1", "One")]
    name_to_char := [("One", "1"), ("one", "1")]
    magelo_inv := [("1", [⟨"101", "Cloak of Embers", "8"⟩])] }

/-- A prior assignment whose `assigned_via_magelo` field is empty followed
by an undecided purchase of the same item (the idempotence
counterexample). -/
def rowsIdem : List LootRow :=
  [{ raid_id := "r1", event_id := "e1", item_name := "Cloak of Embers",
     char_id := "1", character_name := "One", cost := "5",
     assigned_char_id := "1", assigned_character_name := "One",
     assigned_via_magelo := "" },
   { raid_id := "r1", event_id := "e2", item_name := "Cloak of Embers",
     char_id := "1", character_name := "One", cost := "5" }]

/-- Two purchases of the cloak for account `A` (whose single member holds
only one copy): the second lands on an at-cap sole candidate. -/
def rowsCap : List LootRow :=
  [{ raid_id := "r1", event_id := "e1", item_name := "Cloak of Embers",
     char_id := "1", character_name := "One", cost := "10" },
   { raid_id := "r1", event_id := "e2", item_name := "Cloak of Embers",
     char_id := "1", character_name := "One", cost := "10" }]

/-- A ledger with one row whose cost field is a non-numeric string. -/
def rowsBadCost : List LootRow :=
  [{ raid_id := "r1", event_id := "e1", item_name := "Cloak of Embers",
     char_id := "1", character_name := "One", cost := "abc" }]

/-- A directory in which character `9` belongs to account `5`, while the
char id `5` itself is not in the directory: a buyer with char id `5` is
unresolvable, and the fake single-toon bucket keyed by `5` collides with
the real account id `5`. -/
def ctxCollide : RunCtx :=
  { char_to_account := [("9", "5")]
    account_to_chars := [("5", ["9"])]
    dkp_char_id_to_name := [("9", "Nine")]
    name_to_char := [("Nine", "9"), ("nine", "9")]
    magelo_inv := [("9", [⟨"101", "Cloak of Embers", "8"⟩])] }

/-- A purchase by the unresolvable buyer `5` of an item held by the
unrelated character `9`. -/
def rowsCollide : List LootRow :=
  [{ raid_id := "r1", event_id := "e1", item_name := "Cloak of Embers",
     char_id := "5", character_name := "Five", cost := "10" }]

/-- An inventory context for the elemental fallback path: character `1`
holds two copies of elemental silk boots (id 16383, slot 19, silk). -/
def ctxElem : RunCtx :=
  { char_to_account := [("1", "A")]
    account_to_chars := [("A", ["1"])]
    dkp_char_id_to_name := [("1", "One")]
    name_to_char := [("One", "1"), ("one", "1")]
    char_id_to_class := [("1", "wiz")]
    elemental_ids := ["16383"]
    magelo_inv := [("1", [⟨"16383", "Elemental Silk Boots", "19"⟩,
                          ⟨"16383", "Elemental Silk Boots", "19"⟩])] }

/-! ## Basic lemmas about the string primitives -/

theorem toList_mk (l : List Char) : (String.mk l).toList = l := rfl

theorem mk_toList (s : String) : String.mk s.toList = s := rfl

theorem dropWs_head {l : List Char} {c : Char} {t : List Char}
    (h : dropWs l = c :: t) : isWs c = false := by
  induction l with
  | nil => simp [dropWs] at h
  | cons x xs ih =>
    cases hx : isWs x with
    | true => exact ih (by simpa [dropWs, List.dropWhile, hx] using h)
    | false =>
      simp only [dropWs, List.dropWhile, hx] at h
      cases h
      exact hx

theorem dropWs_id_of_head {l : List Char}
    (h : ∀ c t, l = c :: t → isWs c = false) : dropWs l = l := by
  cases l with
  | nil => rfl
  | cons c t => simp [dropWs, List.dropWhile, h c t rfl]

theorem dropWs_sub {l : List Char} : ∃ pre, l = pre ++ dropWs l := by
  induction l with
  | nil => exact ⟨[], rfl⟩
  | cons x xs ih =>
    by_cases hx : isWs x
    · obtain ⟨pre, hp⟩ := ih
      exact ⟨x :: pre, by simpa [dropWs, List.dropWhile, hx] using congrArg (x :: ·) hp⟩
    · exact ⟨[], by simp [dropWs, List.dropWhile, hx]⟩

theorem getLast?_append_right {l₁ l₂ : List Char} (h : l₂ ≠ []) :
    (l₁ ++ l₂).getLast? = l₂.getLast? := by
  induction l₁ with
  | nil => rfl
  | cons x xs ih =>
    rw [List.cons_append, List.getLast?_cons, ih]
    cases l₂ with
    | nil => exact absurd rfl h
    | cons y ys => simp [List.getLast?_cons]

theorem dropWs_getLast? {l : List Char} (hne : dropWs l ≠ []) :
    (dropWs l).getLast? = l.getLast? := by
  obtain ⟨pre, hp⟩ : ∃ pre, l = pre ++ dropWs l := dropWs_sub
  conv_rhs => rw [hp]
  exact (getLast?_append_right hne).symm

theorem pyStrip_toList (s : String) :
    (pyStrip s).toList = dropWs ((dropWs s.toList.reverse).reverse) := rfl

theorem pyStrip_head_not {s : String} {c : Char} {t : List Char}
    (h : (pyStrip s).toList = c :: t) : isWs c = false :=
  dropWs_head (by rw [← pyStrip_toList, h])

theorem pyStrip_last_not {s : String} {c : Char}
    (h : (pyStrip s).toList.getLast? = some c) : isWs c = false := by
  rw [pyStrip_toList] at h
  have hne : dropWs ((dropWs s.toList.reverse).reverse) ≠ [] := by
    intro hnil; rw [hnil] at h; simp at h
  rw [dropWs_getLast? hne] at h
  rw [List.getLast?_reverse] at h
  cases hh : dropWs s.toList.reverse with
  | nil => rw [hh] at h; simp at h
  | cons x xs =>
    rw [hh] at h; simp only [List.head?_cons, Option.some_inj] at h
    subst h; exact dropWs_head hh

theorem pyStrip_idem (s : String) : pyStrip (pyStrip s) = pyStrip s := by
  have hrev : dropWs (pyStrip s).toList.reverse = (pyStrip s).toList.reverse := by
    apply dropWs_id_of_head
    intro c t hct
    have : (pyStrip s).toList.getLast? = some c := by
      rw [← List.head?_reverse, hct]; rfl
    exact pyStrip_last_not this
  have hfwd : dropWs (pyStrip s).toList = (pyStrip s).toList := by
    apply dropWs_id_of_head
    intro c t hct
    exact pyStrip_head_not hct
  show String.mk (dropWs ((dropWs (pyStrip s).toList.reverse).reverse)) = pyStrip s
  rw [hrev, List.reverse_reverse, hfwd, mk_toList]

theorem normalize_pyStrip (s : String) :
    normalize_item_name (pyStrip s) = normalize_item_name s := by
  unfold normalize_item_name
  rw [pyStrip_idem]

theorem optTruthy_strToOpt (x : String) : optTruthy (strToOpt x) = (decide (x ≠ "")) := by
  by_cases h : x = "" <;> simp [strToOpt, optTruthy, h]

theorem strToOpt_getD (x : String) : (strToOpt x).getD "" = x := by
  by_cases h : x = "" <;> simp [strToOpt, h]

theorem strToOpt_roundtrip {x : String} (h : pyStrip x = x) :
    strToOpt (pyStrip ((strToOpt x).getD "")) = strToOpt x := by
  rw [strToOpt_getD, h]

/-! ## C9 — unknown-account rows and the fake-account key collision -/

/-- C9: the claim — and the source's own comment "use char_id as fake
account so we only have namesake" — say a purchase whose buyer resolves to
no account is never assigned beyond the buyer.  The code keys the fake
single-toon bucket by the buyer's char id and then looks that key up in
`account_to_chars`; when the char id collides with a real account id the
whole member list of that unrelated account becomes the candidate pool.
Here buyer `5` is unresolvable, yet the row is assigned to character `9`,
the member of the account whose id happens to be `5`. -/
theorem c9_fake_account_collision :
    resolve_buyer_account ctxCollide (rowsCollide.getD 0 default) = none ∧
    (rowsCollide.getD 0 default).char_id = "5" ∧
    (runEngine ctxCollide false rowsCollide).map (fun p => p.1.map LootRow.assigned_char_id) =
      some ["9"] := by
  decide

/-! ## C6 — missing mandatory inputs -/

/-- C6 counterexample: with the Magelo files present but the ledger file
missing, the program does not fail fast: the ledger loads as `[]`, the
allocation pass runs, and both outputs are written (here: an empty ledger
and an empty summary). -/
theorem c6_missing_ledger_still_writes :
    mainModel true true none ({} : RunCtx) false = Sum.inr (some ([], [])) := by
  decide

/-- C6 amended: only the Magelo character and inventory snapshot files are
checked before processing (exit code 1 and no output when either is
missing); a missing ledger file is read back as the empty row list and the
run still executes and writes its outputs. -/
theorem c6_fail_fast_scope (ce ie : Bool) (led : Option (List LootRow)) (ctx : RunCtx)
    (clear : Bool) :
    ((ce = false ∨ ie = false) → mainModel ce ie led ctx clear = Sum.inl 1) ∧
    (ce = true → ie = true → led = none →
      mainModel ce ie led ctx clear = Sum.inr (runEngine ctx clear [])) := by
  constructor
  · rintro (rfl | rfl)
    · simp [mainModel]
    · cases ce <;> simp [mainModel]
  · rintro rfl rfl rfl
    simp [mainModel]

/-- Witness for `c6_fail_fast_scope` at concrete inputs. -/
theorem c6_fail_fast_scope_witness :
    mainModel false true (some rowsB) ({} : RunCtx) false = Sum.inl 1 ∧
    mainModel true true none ({} : RunCtx) false = Sum.inr (runEngine ({} : RunCtx) false []) :=
  ⟨(c6_fail_fast_scope false true (some rowsB) {} false).1 (Or.inl rfl),
   (c6_fail_fast_scope true true none {} false).2 rfl rfl rfl⟩

/-! ## C5 — malformed cost values -/

/-- C5 counterexample: a ledger whose only row carries the cost string
`"abc"` makes the engine abort (the `float` call raises an uncaught
`ValueError`); the run does not complete and no output is produced. -/
theorem c5_malformed_cost_aborts :
    runEngine ctxA false rowsBadCost = none ∧ pyFloat "abc" = none := by
  decide

/-- C5 amended: only an *empty or missing* cost is treated as zero.  A
non-empty, non-numeric cost on a row that reaches the decision step
aborts the whole run: the loop body returns `none` (the model of the
uncaught `ValueError`). -/
theorem c5_nonempty_malformed_cost_fails (ctx : RunCtx) (clear : Bool) (rows : List LootRow)
    (manual : Nat → Bool) (toons : List String) (st : AccSt) (idx : Nat)
    (hman : manual idx = false)
    (hdec : (!clear && (optTruthy (st.asg idx).cid || optTruthy (st.asg idx).name)) = false)
    (hne : (rows.getD idx default).cost ≠ "")
    (hbad : pyFloat (rows.getD idx default).cost = none) :
    processIdx ctx clear rows manual toons st idx = none := by
  have hc : pyCost (rows.getD idx default).cost = none := by
    unfold pyCost
    rw [if_neg hne]
    exact hbad
  simp only [processIdx]
  rw [hman, hdec, hc]
  simp

/-- Witness for `c5_nonempty_malformed_cost_fails` at a concrete state. -/
theorem c5_nonempty_malformed_cost_fails_witness :
    processIdx ctxA false rowsBadCost (fun _ => false) ["1"]
      ⟨fun _ => default, fun _ => DecNum.zero, fun _ => 0, fun _ _ => 0⟩ 0 = none :=
  c5_nonempty_malformed_cost_fails ctxA false rowsBadCost (fun _ => false) ["1"]
    ⟨fun _ => default, fun _ => DecNum.zero, fun _ => 0, fun _ _ => 0⟩ 0
    rfl (by decide) (by decide) (by decide)

/-! ## C8 — held-count semantics of the material+slot query -/

/-- C8 counterexample: character `1` holds two inventory items matching
the silk/feet elemental requirement, yet `item_count_per_toon` reports a
held-count of `1` (the fallback branch sets `count = 1` and breaks), not
the multiset count `2` the claim asserts. -/
theorem c8_fallback_count_not_multiset :
    ((itemsOfToon ctxElem "1").countP
      (fun it => elemFallbackMatch ctxElem (some "silk") (some [19]) (some "silk") it)) = 2 ∧
    item_count_per_toon ctxElem "Elemental Silk Boots" (some "silk") (some [19]) none ["1"] =
      [("1", 1)] := by
  decide

/-- C8 amended: for an elemental item resolved through the material+slot
fallback (no explicit json rule), the held-count query returns at most 1
per character, regardless of how many matching instances they hold; it is
a presence flag, not a multiset count. -/
theorem c8_fallback_count_le_one (ctx : RunCtx) (norm : String) (reqArmor : Option String)
    (reqSlots : Option (List Int)) (cid : String)
    (hElem : (elementalSourceNorm ctx).elem norm = true) :
    toonCountN ctx norm reqArmor reqSlots none cid ≤ 1 := by
  unfold toonCountN
  simp only [hElem, Option.isSome_none, Bool.false_and, if_false, Bool.false_eq_true,
    eq_self_iff_true, if_true]
  split <;> simp

/-- Witness for `c8_fallback_count_le_one` at the two-copy inventory. -/
theorem c8_fallback_count_le_one_witness :
    toonCountN ctxElem "elemental silk boots" (some "silk") (some [19]) none "1" ≤ 1 :=
  c8_fallback_count_le_one ctxElem "elemental silk boots" (some "silk") (some [19]) "1"
    (by decide)

/-! ## Ordering facts about the Python string comparison -/

theorem strLtL_irrefl (l : List Char) : strLtL l l = false := by
  induction l with
  | nil => rfl
  | cons c t ih => simp [strLtL, ih]

theorem strLtL_trans {a b c : List Char} (h₁ : strLtL a b = true) (h₂ : strLtL b c = true) :
    strLtL a c = true := by
  induction a generalizing b c with
  | nil =>
    cases b with
    | nil => simpa [strLtL] using h₁
    | cons y ys =>
      cases c with
      | nil => simpa [strLtL] using h₂
      | cons z zs => rfl
  | cons x xs ih =>
    cases b with
    | nil => simp [strLtL] at h₁
    | cons y ys =>
      cases c with
      | nil => simp [strLtL] at h₂
      | cons z zs =>
        simp only [strLtL] at h₁ h₂ ⊢
        by_cases hxy : x.toNat < y.toNat
        · by_cases hyz : y.toNat < z.toNat
          · simp [Nat.lt_trans hxy hyz]
          · simp only [hyz, if_false] at h₂
            by_cases hzy : z.toNat < y.toNat
            · simp [hzy] at h₂
            · have heq : y.toNat = z.toNat := by omega
              simp [heq ▸ hxy]
        · simp only [hxy, if_false] at h₁
          by_cases hyx : y.toNat < x.toNat
          · simp [hyx] at h₁
          · have hxyeq : x.toNat = y.toNat := by omega
            by_cases hyz : y.toNat < z.toNat
            · simp [hxyeq ▸ hyz]
            · simp only [hyz, if_false] at h₂
              by_cases hzy : z.toNat < y.toNat
              · simp [hzy] at h₂
              · have hyzeq : y.toNat = z.toNat := by omega
                have hxz : ¬ x.toNat < z.toNat := by omega
                have hzx : ¬ z.toNat < x.toNat := by omega
                simp only [if_neg hyx] at h₁
                simp only [if_neg hzy] at h₂
                simp only [if_neg hxz, if_neg hzx]
                exact ih h₁ h₂

theorem strLtL_connex {a b : List Char} (h : strLtL a b = false) :
    a = b ∨ strLtL b a = true := by
  induction a generalizing b with
  | nil =>
    cases b with
    | nil => exact Or.inl rfl
    | cons y ys => simp [strLtL] at h
  | cons x xs ih =>
    cases b with
    | nil => exact Or.inr rfl
    | cons y ys =>
      simp only [strLtL] at h ⊢
      by_cases hxy : x.toNat < y.toNat
      · simp [hxy] at h
      · by_cases hyx : y.toNat < x.toNat
        · exact Or.inr (by simp [hyx])
        · have hval : x.toNat = y.toNat := by omega
          have hx : x = y := Char.ext (UInt32.ext hval)
          simp only [if_neg hxy, if_neg hyx] at h
          rcases ih h with heq | hlt
          · exact Or.inl (by rw [hx, heq])
          · refine Or.inr ?_
            simp only [if_neg hyx, if_neg hxy, hlt]

theorem strLtPy_irrefl (s : String) : strLtPy s s = false := strLtL_irrefl _

theorem strLtPy_trans {a b c : String} (h₁ : strLtPy a b = true) (h₂ : strLtPy b c = true) :
    strLtPy a c = true := strLtL_trans h₁ h₂

theorem strLtPy_connex {a b : String} (h : strLtPy a b = false) :
    a = b ∨ strLtPy b a = true := by
  rcases strLtL_connex h with heq | hlt
  · left
    rw [← mk_toList a, ← mk_toList b, heq]
  · exact Or.inr hlt

/-! ## Value semantics of the decimal numbers -/

/-- The rational value of a decimal number (proof-side only). -/
noncomputable def DecNum.valQ (a : DecNum) : ℚ := (a.man : ℚ) / (10 : ℚ) ^ a.exp

theorem DecNum.beqv_iff {a b : DecNum} : DecNum.beqv a b = true ↔ a.valQ = b.valQ := by
  have ha : (0 : ℚ) < (10 : ℚ) ^ a.exp := by positivity
  have hb : (0 : ℚ) < (10 : ℚ) ^ b.exp := by positivity
  rw [DecNum.beqv, decide_eq_true_iff, DecNum.valQ, DecNum.valQ,
    div_eq_div_iff (ne_of_gt ha) (ne_of_gt hb)]
  constructor
  · intro h
    exact_mod_cast congrArg (fun z : ℤ => (z : ℚ)) h
  · intro h
    exact_mod_cast h

theorem DecNum.bltv_iff {a b : DecNum} : DecNum.bltv a b = true ↔ a.valQ < b.valQ := by
  have ha : (0 : ℚ) < (10 : ℚ) ^ a.exp := by positivity
  have hb : (0 : ℚ) < (10 : ℚ) ^ b.exp := by positivity
  rw [DecNum.bltv, decide_eq_true_iff, DecNum.valQ, DecNum.valQ, div_lt_div_iff ha hb]
  constructor
  · intro h
    exact_mod_cast h
  · intro h
    exact_mod_cast h

/-! ## C2 — the multi-candidate tie-break -/

/-- C2 counterexample: Scenario B.  Both members of account `Y` hold one
copy and both purchases start the run with zero spend and zero count; the
claim says the first purchase goes to the lower-id member (`"1"`), but the
engine assigns it to `"2"` and only the second purchase to `"1"`. -/
theorem c2_scenario_b_higher_id_first :
    (runEngine ctxB false rowsB).map (fun p => p.1.map LootRow.assigned_char_id) =
      some ["2", "1"] ∧
    strLtPy "1" "2" = true := by
  decide

/-- Fold step of Python `max` with a strictly-greater test `gt`: the
running best is drawn from the pool and no pool element is strictly
greater than the result. -/
theorem pymax_fold_inv (gt : String → String → Bool)
    (hirr : ∀ a, gt a a = false)
    (htr : ∀ a b c, gt a b = true → gt b c = true → gt a c = true)
    (hco : ∀ a b, gt a b = false → a = b ∨ gt b a = true) :
    ∀ (xs : List String) (b : String),
      (xs.foldl (fun best c => if gt c best then c else best) b) ∈ b :: xs ∧
      ∀ c ∈ b :: xs, gt c (xs.foldl (fun best c => if gt c best then c else best) b) = false := by
  intro xs
  induction xs with
  | nil =>
    intro b
    refine ⟨List.mem_singleton.mpr rfl, ?_⟩
    intro c hc
    rw [List.mem_singleton.mp hc]
    exact hirr b
  | cons y ys ih =>
    intro b
    by_cases hby : gt y b = true
    · have h' := ih y
      simp only [List.foldl_cons, if_pos hby]
      refine ⟨?_, ?_⟩
      · exact List.mem_cons_of_mem _ h'.1
      · intro c hc
        rcases List.mem_cons.mp hc with rfl | hc
        · -- the discarded old best: y beats it, so it cannot beat the result
          by_contra hlt
          have hlt' : gt c (ys.foldl (fun best d => if gt d best then d else best) y) = true := by
            simpa using hlt
          have hyr := h'.2 y (List.mem_cons_self _ _)
          have : gt y (ys.foldl (fun best d => if gt d best then d else best) y) = true :=
            htr _ _ _ hby hlt'
          rw [hyr] at this
          exact absurd this (by simp)
        · exact h'.2 c hc
    · have h' := ih b
      simp only [List.foldl_cons, if_neg hby]
      refine ⟨?_, ?_⟩
      · rcases List.mem_cons.mp h'.1 with h | h
        · rw [h]
          exact List.mem_cons_self _ _
        · exact List.mem_cons_of_mem _ (List.mem_cons_of_mem _ h)
      · intro c hc
        rcases List.mem_cons.mp hc with rfl | hc
        · exact h'.2 c (List.mem_cons_self _ _)
        · rcases List.mem_cons.mp hc with rfl | hc
          · -- the discarded newcomer: it did not beat b, so it cannot beat the result
            by_contra hlt
            have hlt' : gt c (ys.foldl (fun best d => if gt d best then d else best) b) = true := by
              simpa using hlt
            have hbr := h'.2 b (List.mem_cons_self _ _)
            rcases hco c b (by simpa using hby) with heq | hgt
            · rw [heq, hbr] at hlt'
              exact absurd hlt' (by simp)
            · have : gt b (ys.foldl (fun best d => if gt d best then d else best) b) = true :=
                htr _ _ _ hgt hlt'
              rw [hbr] at this
              exact absurd this (by simp)
          · exact h'.2 c (List.mem_cons_of_mem _ hc)


theorem candKeyGt_iff (dkp : String → DecNum) (cnt : String → Nat) (a b : String) :
    candKeyGt dkp cnt a b = true ↔
      ((dkp b).valQ < (dkp a).valQ ∨
       ((dkp a).valQ = (dkp b).valQ ∧
        (cnt b < cnt a ∨ (cnt a = cnt b ∧ strLtPy b a = true)))) := by
  unfold candKeyGt
  by_cases hb : DecNum.beqv (dkp a) (dkp b) = true
  · have hval : (dkp a).valQ = (dkp b).valQ := DecNum.beqv_iff.mp hb
    rw [if_neg (by simp [hb])]
    by_cases hcnt : cnt a = cnt b
    · rw [if_neg (by simp [hcnt])]
      constructor
      · intro h
        exact Or.inr ⟨hval, Or.inr ⟨hcnt, h⟩⟩
      · rintro (h | ⟨-, h | ⟨-, h⟩⟩)
        · exact absurd h (by rw [hval]; exact lt_irrefl _)
        · omega
        · exact h
    · rw [if_pos (by simp [hcnt])]
      constructor
      · intro h
        exact Or.inr ⟨hval, Or.inl (by simpa using h)⟩
      · rintro (h | ⟨-, h | ⟨h, -⟩⟩)
        · exact absurd h (by rw [hval]; exact lt_irrefl _)
        · simpa using h
        · exact absurd h hcnt
  · have hval : (dkp a).valQ ≠ (dkp b).valQ := fun h => hb (DecNum.beqv_iff.mpr h)
    rw [if_pos (by simp [hb])]
    rw [DecNum.bltv_iff]
    constructor
    · exact Or.inl
    · rintro (h | ⟨h, -⟩)
      · exact h
      · exact absurd h hval

theorem candKeyGt_irrefl (dkp : String → DecNum) (cnt : String → Nat) (a : String) :
    candKeyGt dkp cnt a a = false := by
  rw [Bool.eq_false_iff]
  intro h
  rcases (candKeyGt_iff dkp cnt a a).mp h with h | ⟨-, h | ⟨-, h⟩⟩
  · exact absurd h (lt_irrefl _)
  · omega
  · rw [strLtPy_irrefl] at h
    exact absurd h (by simp)

theorem candKeyGt_trans (dkp : String → DecNum) (cnt : String → Nat) (a b c : String)
    (h₁ : candKeyGt dkp cnt a b = true) (h₂ : candKeyGt dkp cnt b c = true) :
    candKeyGt dkp cnt a c = true := by
  rw [candKeyGt_iff] at h₁ h₂ ⊢
  rcases h₁ with h₁ | ⟨e₁, h₁⟩
  · rcases h₂ with h₂ | ⟨e₂, h₂⟩
    · exact Or.inl (lt_trans h₂ h₁)
    · exact Or.inl (e₂ ▸ h₁)
  · rcases h₂ with h₂ | ⟨e₂, h₂⟩
    · exact Or.inl (e₁ ▸ h₂)
    · refine Or.inr ⟨e₁.trans e₂, ?_⟩
      rcases h₁ with h₁ | ⟨c₁, h₁⟩
      · rcases h₂ with h₂ | ⟨c₂, h₂⟩
        · exact Or.inl (lt_trans h₂ h₁)
        · exact Or.inl (c₂ ▸ h₁)
      · rcases h₂ with h₂ | ⟨c₂, h₂⟩
        · exact Or.inl (c₁ ▸ h₂)
        · exact Or.inr ⟨c₁.trans c₂, strLtPy_trans h₂ h₁⟩

theorem candKeyGt_connex (dkp : String → DecNum) (cnt : String → Nat) (a b : String)
    (h : candKeyGt dkp cnt a b = false) : a = b ∨ candKeyGt dkp cnt b a = true := by
  have hn : ¬ ((dkp b).valQ < (dkp a).valQ ∨
      ((dkp a).valQ = (dkp b).valQ ∧
       (cnt b < cnt a ∨ (cnt a = cnt b ∧ strLtPy b a = true)))) := by
    rw [← candKeyGt_iff dkp cnt a b, h]
    simp
  push_neg at hn
  rcases lt_trichotomy (dkp a).valQ (dkp b).valQ with hv | hv | hv
  · exact Or.inr ((candKeyGt_iff dkp cnt b a).mpr (Or.inl hv))
  · have h₂ := hn.2 hv
    rcases Nat.lt_trichotomy (cnt a) (cnt b) with hc | hc | hc
    · exact Or.inr ((candKeyGt_iff dkp cnt b a).mpr (Or.inr ⟨hv.symm, Or.inl hc⟩))
    · have h₃ := h₂.2 hc
      rcases strLtPy_connex (Bool.eq_false_iff.mpr h₃) with heq | hlt
      · exact Or.inl heq.symm
      · exact Or.inr ((candKeyGt_iff dkp cnt b a).mpr (Or.inr ⟨hv.symm, Or.inr ⟨hc.symm, hlt⟩⟩))
    · exact absurd hc (not_lt.mpr h₂.1)
  · exact absurd hv (not_lt.mpr hn.1)

/-- C2 amended: when every under-cap candidate carries the same running
spend and the same running count, the engine's pick (`chooseBest`, the
`max(..., key=(dkp_spent, count, id))` of the source) is the candidate
with the *greatest* identifier in Python string order — not the lowest:
the chosen `x` belongs to the pool and no candidate is strictly greater.
In Scenario B this sends the first purchase to the higher-id member and
the second to the other member. -/
theorem c2_equal_keys_pick_greatest_id (dkp : String → DecNum) (cnt : String → Nat)
    (l : List String) (d : DecNum) (n : Nat) (x : String)
    (heq : ∀ c ∈ l, DecNum.beqv (dkp c) d = true ∧ cnt c = n)
    (hx : chooseBest dkp cnt l = some x) :
    x ∈ l ∧ ∀ c ∈ l, strLtPy x c = false := by
  cases l with
  | nil => simp [chooseBest, pymaxBy] at hx
  | cons h t =>
    have inv := pymax_fold_inv (candKeyGt dkp cnt) (candKeyGt_irrefl dkp cnt)
      (candKeyGt_trans dkp cnt) (candKeyGt_connex dkp cnt) t h
    have hxe : x = t.foldl (fun best c => if candKeyGt dkp cnt c best then c else best) h := by
      have hx' := hx
      unfold chooseBest pymaxBy at hx'
      exact (Option.some_inj.mp hx').symm
    subst hxe
    refine ⟨inv.1, ?_⟩
    intro c hc
    have hgt := inv.2 c hc
    have hcx : (dkp c).valQ =
        (dkp (t.foldl (fun best c => if candKeyGt dkp cnt c best then c else best) h)).valQ := by
      rw [DecNum.beqv_iff.mp (heq c hc).1, DecNum.beqv_iff.mp (heq _ inv.1).1]
    have hcnt : cnt c = cnt (t.foldl (fun best c => if candKeyGt dkp cnt c best then c else best) h) := by
      rw [(heq c hc).2, (heq _ inv.1).2]
    rw [Bool.eq_false_iff]
    intro hlt
    have hckg : candKeyGt dkp cnt c
        (t.foldl (fun best c => if candKeyGt dkp cnt c best then c else best) h) = true :=
      (candKeyGt_iff dkp cnt c _).mpr (Or.inr ⟨hcx, Or.inr ⟨hcnt, hlt⟩⟩)
    rw [hgt] at hckg
    exact absurd hckg (by simp)

/-- Witness for `c2_equal_keys_pick_greatest_id` on the Scenario B pool. -/
theorem c2_equal_keys_pick_greatest_id_witness :
    "2" ∈ ["1", "2"] ∧ ∀ c ∈ ["1", "2"], strLtPy "2" c = false :=
  c2_equal_keys_pick_greatest_id (fun _ => DecNum.zero) (fun _ => 0) ["1", "2"]
    DecNum.zero 0 "2" (by decide) (by decide)

/-! ## C7 — single-candidate assignment -/

theorem toonHas_iff_count_pos (ctx : RunCtx) (norm : String) (reqArmor : Option String)
    (reqSlots : Option (List Int)) (lookup : Option (List (String × String))) (cid : String) :
    toonHasItemN ctx norm reqArmor reqSlots lookup cid = true ↔
      0 < toonCountN ctx norm reqArmor reqSlots lookup cid := by
  unfold toonHasItemN toonCountN
  rcases hElem : (elementalSourceNorm ctx).elem norm <;>
    rcases hJson : lookup.isSome <;>
    simp [hElem, hJson, List.any_eq_true, List.countP_pos] <;>
    split <;> simp_all

theorem whichToonsN_eq_filter (ctx : RunCtx) (norm : String) (reqArmor : Option String)
    (reqSlots : Option (List Int)) (lookup : Option (List (String × String)))
    (toons : List String) :
    whichToonsN ctx norm reqArmor reqSlots lookup toons =
      toons.filter (fun t => decide (0 < toonCountN ctx norm reqArmor reqSlots lookup t)) := by
  unfold whichToonsN
  apply List.filter_congr
  intro t _
  rcases hh : toonHasItemN ctx norm reqArmor reqSlots lookup t with h | h
  · have := (not_congr (toonHas_iff_count_pos ctx norm reqArmor reqSlots lookup t)).mp
      (by rw [hh]; simp)
    simpa using (this : ¬ 0 < toonCountN ctx norm reqArmor reqSlots lookup t)
  · have := (toonHas_iff_count_pos ctx norm reqArmor reqSlots lookup t).mp hh
    simpa using this

theorem lookupD_map_pair {g : String → Nat} {toons : List String} {c : String}
    (hc : c ∈ toons) :
    lookupD (toons.map (fun cid => (cid, g cid))) c = some (g c) := by
  induction toons with
  | nil => cases hc
  | cons t ts ih =>
    rcases List.mem_cons.mp hc with rfl | hmem
    · simp [lookupD, List.find?]
    · by_cases ht : t = c
      · subst ht
        simp [lookupD, List.find?]
      · simp only [List.map_cons, lookupD, List.find?]
        rw [decide_eq_false ht]
        simpa [lookupD] using ih hmem

theorem decideChoice_single (ctx : RunCtx) (toons : List String) (dkp : String → DecNum)
    (cnt : String → Nat) (icnt : String → String → Nat) (norm : String) (c : String)
    (hfilter : toons.filter (fun t => decide (0 < capFor ctx norm t)) = [c])
    (hcap : icnt c norm < capFor ctx norm c) :
    decideChoice ctx toons dkp cnt icnt norm = some c := by
  have hcmem : c ∈ toons := by
    have hmem : c ∈ toons.filter (fun t => decide (0 < capFor ctx norm t)) := by
      rw [hfilter]
      exact List.mem_singleton.mpr rfl
    exact (List.mem_filter.mp hmem).1
  have hcpos : 0 < capFor ctx norm c := by
    have hmem : c ∈ toons.filter (fun t => decide (0 < capFor ctx norm t)) := by
      rw [hfilter]
      exact List.mem_singleton.mpr rfl
    simpa using (List.mem_filter.mp hmem).2
  have htne : ¬ toons = [] := by
    intro h
    rw [h] at hcmem
    cases hcmem
  simp only [decideChoice]
  rcases hreq : reqFor ctx norm with ⟨ra, rs⟩
  have hcapFor : ∀ t, capFor ctx norm t
      = toonCountN ctx norm ra rs (lookupD ctx.dkp_elemental_map norm) t := by
    intro t
    simp only [capFor, hreq]
  rw [if_neg htne]
  have hcand : whichToonsN ctx norm ra rs (lookupD ctx.dkp_elemental_map norm) toons = [c] := by
    rw [whichToonsN_eq_filter]
    rw [← hfilter]
    apply List.filter_congr
    intro t _
    rw [hcapFor t]
  rw [hcand]
  simp only [itemCountPerToonN, lookupD_map_pair hcmem, Option.getD_some]
  have h1 : 0 < toonCountN ctx norm ra rs (lookupD ctx.dkp_elemental_map norm) c := by
    rw [← hcapFor c]
    exact hcpos
  have h2 : icnt c norm < toonCountN ctx norm ra rs (lookupD ctx.dkp_elemental_map norm) c := by
    rw [← hcapFor c]
    exact hcap
  simp [h1, h2]

/-- C7 counterexample: account `A` has one member (`"1"`) holding exactly
one copy of the item, so for the second purchase exactly one account
member has held-count > 0, the row needs a decision, and yet the engine
leaves it unassigned (the sole candidate is at cap). -/
theorem c7_sole_candidate_at_cap_unassigned :
    (runEngine ctxA false rowsCap).map (fun p => p.1.map LootRow.assigned_char_id) =
      some ["1", ""] ∧
    (toonsFor ctxA "A").filter
      (fun t => decide (0 < capFor ctxA "cloak of embers" t)) = ["1"] := by
  decide

/-- C7 amended: a purchase row needing a decision whose account has
exactly one member with held-count > 0 is assigned to that member
*provided* the member is still under their supply cap (fewer copies
consumed this run than their held-count); an at-cap sole candidate is
left unassigned. -/
theorem c7_single_candidate_under_cap_assigned (ctx : RunCtx) (clear : Bool)
    (rows : List LootRow) (manual : Nat → Bool) (toons : List String) (st : AccSt)
    (idx : Nat) (c : String) (cost : DecNum)
    (hman : manual idx = false)
    (hdec : (!clear && (optTruthy (st.asg idx).cid || optTruthy (st.asg idx).name)) = false)
    (hcost : pyCost (rows.getD idx default).cost = some cost)
    (hfilter : toons.filter (fun t =>
        decide (0 < capFor ctx (normalize_item_name (rows.getD idx default).item_name) t)) = [c])
    (hcap : st.icnt c (normalize_item_name (rows.getD idx default).item_name)
        < capFor ctx (normalize_item_name (rows.getD idx default).item_name) c) :
    ∃ st', processIdx ctx clear rows manual toons st idx = some st' ∧
      (st'.asg idx).cid = some c := by
  have hnorm : normalize_item_name (pyStrip (rows.getD idx default).item_name)
      = normalize_item_name (rows.getD idx default).item_name := normalize_pyStrip _
  simp only [processIdx]
  rw [hman, hdec, hcost, hnorm]
  rw [decideChoice_single ctx toons st.dkp st.cnt st.icnt _ c hfilter hcap]
  refine ⟨_, rfl, ?_⟩
  simp [assignStep, updF]

/-- Witness for `c7_single_candidate_under_cap_assigned` on the first
Scenario purchase of `rowsCap`. -/
theorem c7_single_candidate_under_cap_assigned_witness :
    ∃ st', processIdx ctxA false rowsCap (fun _ => false) (toonsFor ctxA "A")
      ⟨fun _ => default, fun _ => DecNum.zero, fun _ => 0, fun _ _ => 0⟩ 0 = some st' ∧
      (st'.asg 0).cid = some "1" :=
  c7_single_candidate_under_cap_assigned ctxA false rowsCap (fun _ => false) (toonsFor ctxA "A")
    ⟨fun _ => default, fun _ => DecNum.zero, fun _ => 0, fun _ _ => 0⟩ 0 "1" ⟨10, 0⟩
    rfl (by decide) (by decide) (by decide) (by decide)

/-! ## C10 — the output ledger frame -/

theorem buildOutputAux_length (asg : Nat → AState) :
    ∀ (rows : List LootRow) (i : Nat), (buildOutputAux asg i rows).length = rows.length := by
  intro rows
  induction rows with
  | nil => intro i; rfl
  | cons r rs ih => intro i; simp [buildOutputAux, ih]

theorem buildOutputAux_get? (asg : Nat → AState) :
    ∀ (rows : List LootRow) (i j : Nat),
      (buildOutputAux asg i rows).get? j = (rows.get? j).map (fun r => outRow (asg (i + j)) r) := by
  intro rows
  induction rows with
  | nil => intro i j; rfl
  | cons r rs ih =>
    intro i j
    cases j with
    | zero => simp [buildOutputAux]
    | succ j' =>
      simp only [buildOutputAux, List.get?]
      rw [ih (i + 1) j']
      have harith : i + 1 + j' = i + (j' + 1) := by omega
      rw [harith]

theorem buildOutput_length (asg : Nat → AState) (rows : List LootRow) :
    (buildOutput asg rows).length = rows.length := buildOutputAux_length asg rows 0

theorem buildOutput_get? (asg : Nat → AState) (rows : List LootRow) (j : Nat) :
    (buildOutput asg rows).get? j = (rows.get? j).map (fun r => outRow (asg j) r) := by
  rw [buildOutput, buildOutputAux_get? asg rows 0 j]
  simp

theorem runEngine_out_shape {ctx : RunCtx} {clear : Bool} {rows out : List LootRow}
    {counts : List CountRow} (h : runEngine ctx clear rows = some (out, counts)) :
    ∃ asgF, ((accountKeys ctx rows).foldlM
        (fun asg k =>
          processGroup ctx clear rows (manualOnly clear rows) (toonsFor ctx k) asg
            (sortIndices (lootSortKey ctx rows) (groupIdxs ctx rows k)))
        (initAssign clear rows)) = some asgF ∧
      out = buildOutput (fun i => resolveOne ctx (asgF i)) rows ∧
      counts = buildCounts ctx rows (fun i => resolveOne ctx (asgF i)) := by
  unfold runEngine at h
  rcases Option.map_eq_some'.mp h with ⟨asgF, hfold, hval⟩
  refine ⟨asgF, hfold, ?_, ?_⟩
  · exact (congrArg Prod.fst hval).symm
  · exact (congrArg Prod.snd hval).symm

/-- C10: the output ledger has exactly one row per input row, in input
order, and every field other than the three assignment columns
(`assigned_char_id`, `assigned_character_name`, `assigned_via_magelo`)
round-trips unchanged: `raid_id`, `event_id`, `item_name`, `char_id`,
`character_name`, `cost`, the optional row-identity `id`, and the
`manual_assignment` / `manual` columns all equal their input values. -/
theorem c10_output_frame (ctx : RunCtx) (clear : Bool) (rows out : List LootRow)
    (counts : List CountRow) (h : runEngine ctx clear rows = some (out, counts)) :
    out.length = rows.length ∧
    ∀ i row, rows.get? i = some row → ∃ orow, out.get? i = some orow ∧
      orow.raid_id = row.raid_id ∧ orow.event_id = row.event_id ∧
      orow.item_name = row.item_name ∧ orow.char_id = row.char_id ∧
      orow.character_name = row.character_name ∧ orow.cost = row.cost ∧
      orow.id = row.id ∧ orow.manual_assignment = row.manual_assignment ∧
      orow.manual = row.manual := by
  obtain ⟨asgF, hfold, hout, hcounts⟩ := runEngine_out_shape h
  subst hout
  refine ⟨buildOutput_length _ rows, ?_⟩
  intro i row hrow
  refine ⟨outRow (resolveOne ctx (asgF i)) row, ?_, rfl, rfl, rfl, rfl, rfl, rfl, rfl, rfl, rfl⟩
  rw [buildOutput_get?, hrow]
  rfl

/-- Witness for `c10_output_frame` on the Scenario B run. -/
theorem c10_output_frame_witness :
    ∃ out counts, runEngine ctxB false rowsB = some (out, counts) ∧ out.length = rowsB.length := by
  match hh : runEngine ctxB false rowsB with
  | some (out, counts) =>
    exact ⟨out, counts, rfl, (c10_output_frame ctxB false rowsB out counts hh).1⟩
  | none => exact absurd hh (by decide)

/-! ## Inversion and frame lemmas for the engine loop body -/

theorem processIdx_inv {ctx : RunCtx} {clear : Bool} {rows : List LootRow} {manual : Nat → Bool}
    {toons : List String} {st : AccSt} {idx : Nat} {st' : AccSt}
    (h : processIdx ctx clear rows manual toons st idx = some st') :
    (manual idx = true ∧ st' = st) ∨
    (manual idx = false ∧
      (!clear && (optTruthy (st.asg idx).cid || optTruthy (st.asg idx).name)) = true ∧
      (((st.asg idx).cid.getD "" = "" ∧ st' = st) ∨
       (∃ cost, (st.asg idx).cid.getD "" ≠ "" ∧
         pyCost (rows.getD idx default).cost = some cost ∧
         st' = foldStep st ((st.asg idx).cid.getD "") cost
           (normalize_item_name (rows.getD idx default).item_name)))) ∨
    (manual idx = false ∧
      (!clear && (optTruthy (st.asg idx).cid || optTruthy (st.asg idx).name)) = false ∧
      (∃ cost, pyCost (rows.getD idx default).cost = some cost ∧
        ((decideChoice ctx toons st.dkp st.cnt st.icnt
            (normalize_item_name (pyStrip (rows.getD idx default).item_name)) = none ∧
          st' = st) ∨
         (∃ c, decideChoice ctx toons st.dkp st.cnt st.icnt
            (normalize_item_name (pyStrip (rows.getD idx default).item_name)) = some c ∧
          st' = assignStep st idx c (assignName ctx c) cost
            (normalize_item_name (pyStrip (rows.getD idx default).item_name)))))) := by
  unfold processIdx at h
  rcases hm : manual idx with hmv | hmv
  · rw [hm] at h
    simp only [Bool.false_eq_true, if_false] at h
    rcases hp : (!clear && (optTruthy (st.asg idx).cid || optTruthy (st.asg idx).name)) with hpv | hpv
    · rw [hp] at h
      simp only [Bool.false_eq_true, if_false] at h
      rcases hco : pyCost (rows.getD idx default).cost with _ | cost
      · rw [hco] at h
        exact absurd h (by simp)
      · rw [hco] at h
        simp only [Option.map_some'] at h
        rcases hdc : decideChoice ctx toons st.dkp st.cnt st.icnt
            (normalize_item_name (pyStrip (rows.getD idx default).item_name)) with _ | c
        · rw [hdc] at h
          refine Or.inr (Or.inr ⟨rfl, rfl, cost, rfl, Or.inl ⟨rfl, ?_⟩⟩)
          exact (Option.some_inj.mp h).symm
        · rw [hdc] at h
          refine Or.inr (Or.inr ⟨rfl, rfl, cost, rfl, Or.inr ⟨c, rfl, ?_⟩⟩)
          exact (Option.some_inj.mp h).symm
    · rw [hp] at h
      simp only [if_true] at h
      by_cases hcee : (st.asg idx).cid.getD "" = ""
      · rw [if_pos hcee] at h
        exact Or.inr (Or.inl ⟨rfl, rfl, Or.inl ⟨hcee, (Option.some_inj.mp h).symm⟩⟩)
      · rw [if_neg hcee] at h
        rcases hco : pyCost (rows.getD idx default).cost with _ | cost
        · rw [hco] at h
          exact absurd h (by simp)
        · rw [hco] at h
          simp only [Option.map_some'] at h
          exact Or.inr (Or.inl ⟨rfl, rfl, Or.inr ⟨cost, hcee, rfl, (Option.some_inj.mp h).symm⟩⟩)
  · rw [hm] at h
    simp only [if_true] at h
    exact Or.inl ⟨rfl, (Option.some_inj.mp h).symm⟩

theorem foldStep_asg (st : AccSt) (cid : String) (cost : DecNum) (norm : String) :
    (foldStep st cid cost norm).asg = st.asg := rfl

theorem assignStep_asg (st : AccSt) (idx : Nat) (c name : String) (cost : DecNum) (norm : String) :
    (assignStep st idx c name cost norm).asg = updF st.asg idx ⟨some c, some name, true⟩ := rfl

theorem processIdx_asg_untouched {ctx : RunCtx} {clear : Bool} {rows : List LootRow}
    {manual : Nat → Bool} {toons : List String} {st : AccSt} {idx : Nat} {st' : AccSt}
    (h : processIdx ctx clear rows manual toons st idx = some st')
    {i : Nat} (hi : i ≠ idx) : st'.asg i = st.asg i := by
  rcases processIdx_inv h with ⟨-, rfl⟩ | ⟨-, -, ⟨-, rfl⟩ | ⟨cost, -, -, rfl⟩⟩ |
    ⟨-, -, cost, -, ⟨-, rfl⟩ | ⟨c, -, rfl⟩⟩
  · rfl
  · rfl
  · rfl
  · rfl
  · rw [assignStep_asg, updF]
    simp [hi]

theorem processIdx_asg_manual {ctx : RunCtx} {clear : Bool} {rows : List LootRow}
    {manual : Nat → Bool} {toons : List String} {st : AccSt} {idx : Nat} {st' : AccSt}
    (h : processIdx ctx clear rows manual toons st idx = some st')
    {i : Nat} (hi : manual i = true) : st'.asg i = st.asg i := by
  by_cases hii : i = idx
  · subst hii
    rcases processIdx_inv h with ⟨-, rfl⟩ | ⟨hm, -, ⟨-, rfl⟩ | ⟨cost, -, -, rfl⟩⟩ |
      ⟨hm, -, cost, -, ⟨-, rfl⟩ | ⟨c, -, rfl⟩⟩
    · rfl
    · rfl
    · rfl
    · rfl
    · rw [hi] at hm
      exact absurd hm (by simp)
  · exact processIdx_asg_untouched h hii

theorem foldlM_processIdx_asg_manual {ctx : RunCtx} {clear : Bool} {rows : List LootRow}
    {manual : Nat → Bool} {toons : List String} {i : Nat} (hi : manual i = true) :
    ∀ {idxs : List Nat} {st stF : AccSt},
      List.foldlM (processIdx ctx clear rows manual toons) st idxs = some stF →
      stF.asg i = st.asg i := by
  intro idxs
  induction idxs with
  | nil =>
    intro st stF h
    rw [Option.some_inj.mp h]
  | cons j js ih =>
    intro st stF h
    rw [List.foldlM_cons] at h
    rcases Option.bind_eq_some.mp h with ⟨st₁, h₁, h₂⟩
    rw [ih h₂, processIdx_asg_manual h₁ hi]

theorem processGroup_asg_manual {ctx : RunCtx} {clear : Bool} {rows : List LootRow}
    {manual : Nat → Bool} {toons : List String} {asg : Nat → AState} {idxs : List Nat}
    {asgF : Nat → AState}
    (h : processGroup ctx clear rows manual toons asg idxs = some asgF)
    {i : Nat} (hi : manual i = true) : asgF i = asg i := by
  unfold processGroup at h
  rcases Option.map_eq_some'.mp h with ⟨stF, hfold, hval⟩
  rw [← hval]
  exact foldlM_processIdx_asg_manual hi hfold

theorem runFold_asg_manual {ctx : RunCtx} {clear : Bool} {rows : List LootRow}
    {i : Nat} (hi : manualOnly clear rows i = true) :
    ∀ {keys : List String} {g gF : Nat → AState},
      List.foldlM
        (fun asg k =>
          processGroup ctx clear rows (manualOnly clear rows) (toonsFor ctx k) asg
            (sortIndices (lootSortKey ctx rows) (groupIdxs ctx rows k)))
        g keys = some gF →
      gF i = g i := by
  intro keys
  induction keys with
  | nil =>
    intro g gF h
    rw [Option.some_inj.mp h]
  | cons k ks ih =>
    intro g gF h
    rw [List.foldlM_cons] at h
    rcases Option.bind_eq_some.mp h with ⟨g₁, h₁, h₂⟩
    rw [ih h₂, processGroup_asg_manual h₁ hi]

theorem resolveOne_of_truthy {ctx : RunCtx} {a : AState} (h : optTruthy a.name = true) :
    resolveOne ctx a = a := by
  unfold resolveOne
  rw [if_pos h]

theorem resolveOne_cid (ctx : RunCtx) (a : AState) : (resolveOne ctx a).cid = a.cid := by
  unfold resolveOne
  by_cases h : optTruthy a.name = true
  · rw [if_pos h]
  · rw [if_neg h]
    by_cases h2 : a.cid.getD "" = ""
    · simp [h2]
    · simp [h2]

theorem resolveOne_via (ctx : RunCtx) (a : AState) : (resolveOne ctx a).viaMagelo = a.viaMagelo := by
  unfold resolveOne
  by_cases h : optTruthy a.name = true
  · rw [if_pos h]
  · rw [if_neg h]
    by_cases h2 : a.cid.getD "" = ""
    · simp [h2]
    · simp [h2]

/-! ## C1 — manual rows -/

/-- C1 counterexample: a row with `manual_assignment = 1` whose input
`assigned_via_magelo` is `1` is re-serialized with `assigned_via_magelo = 0`
— the row is not bit-for-bit unchanged. -/
theorem c1_manual_via_flag_rewritten :
    (rowsManual.getD 0 default).manual_assignment = "1" ∧
    (rowsManual.getD 0 default).assigned_via_magelo = "1" ∧
    (runEngine ctxB false rowsManual).map (fun p => p.1.map LootRow.assigned_via_magelo) =
      some ["0"] := by
  decide

/-- C1 amended: for a row with `manual_assignment = 1` the engine
preserves every ordinary field and the assignment itself —
`assigned_char_id` (as loaded, i.e. stripped) and a non-empty
`assigned_character_name` are never altered, on any run, with or without
the recompute flag — but the row is not bit-for-bit unchanged:
`assigned_via_magelo` is always re-serialized as `"0"` (and an empty
`assigned_character_name` may be filled in from the character tables). -/
theorem c1_manual_rows_preserved (ctx : RunCtx) (clear : Bool) (rows out : List LootRow)
    (counts : List CountRow) (i : Nat) (row : LootRow)
    (h : runEngine ctx clear rows = some (out, counts))
    (hrow : rows.get? i = some row)
    (hman : isExplicitManual row = true) :
    ∃ orow, out.get? i = some orow ∧
      orow.raid_id = row.raid_id ∧ orow.event_id = row.event_id ∧
      orow.item_name = row.item_name ∧ orow.char_id = row.char_id ∧
      orow.character_name = row.character_name ∧ orow.cost = row.cost ∧
      orow.id = row.id ∧ orow.manual_assignment = row.manual_assignment ∧
      orow.manual = row.manual ∧
      orow.assigned_char_id = pyStrip row.assigned_char_id ∧
      (pyStrip row.assigned_character_name ≠ "" →
        orow.assigned_character_name = pyStrip row.assigned_character_name) ∧
      orow.assigned_via_magelo = "0" := by
  obtain ⟨asgF, hfold, hout, -⟩ := runEngine_out_shape h
  have hmo : manualOnly clear rows i = true := by
    unfold manualOnly
    rw [hrow]
    simp [preprocessRow, hman]
  have hinit : initAssign clear rows i =
      ⟨strToOpt (pyStrip row.assigned_char_id),
       strToOpt (pyStrip row.assigned_character_name), false⟩ := by
    unfold initAssign
    rw [hrow]
    simp [preprocessRow, hman]
  have hF : asgF i = initAssign clear rows i := runFold_asg_manual hmo hfold
  subst hout
  refine ⟨outRow (resolveOne ctx (asgF i)) row, ?_, rfl, rfl, rfl, rfl, rfl, rfl, rfl, rfl, rfl,
    ?_, ?_, ?_⟩
  · rw [buildOutput_get?, hrow]
    rfl
  · show (resolveOne ctx (asgF i)).cid.getD "" = pyStrip row.assigned_char_id
    rw [resolveOne_cid, hF, hinit]
    exact strToOpt_getD _
  · intro hne
    show (resolveOne ctx (asgF i)).name.getD "" = pyStrip row.assigned_character_name
    have htr : optTruthy (asgF i).name = true := by
      rw [hF, hinit]
      show optTruthy (strToOpt (pyStrip row.assigned_character_name)) = true
      rw [optTruthy_strToOpt]
      exact decide_eq_true hne
    rw [resolveOne_of_truthy htr, hF, hinit]
    exact strToOpt_getD _
  · show (if (resolveOne ctx (asgF i)).viaMagelo then "1" else "0") = "0"
    rw [resolveOne_via, hF, hinit]
    rfl

/-- Witness for `c1_manual_rows_preserved` on the manual-row ledger. -/
theorem c1_manual_rows_preserved_witness :
    ∃ orow, ∃ out counts, runEngine ctxB false rowsManual = some (out, counts) ∧
      out.get? 0 = some orow ∧ orow.assigned_char_id = "7" ∧
      orow.assigned_character_name = "Bob" ∧ orow.assigned_via_magelo = "0" := by
  match hh : runEngine ctxB false rowsManual with
  | some (out, counts) =>
    obtain ⟨orow, h1, -, -, -, -, -, -, -, -, -, h2, h3, h4⟩ :=
      c1_manual_rows_preserved ctxB false rowsManual out counts 0
        (rowsManual.getD 0 default) hh (by decide) (by decide)
    exact ⟨orow, out, counts, rfl, h1, by rw [h2]; decide, by rw [h3 (by decide)]; decide, h4⟩
  | none => exact absurd hh (by decide)

/-! ## C3 — cap accounting -/

theorem foldl_choice_mem (gt : String → String → Bool) :
    ∀ (xs : List String) (b : String),
      (xs.foldl (fun best c => if gt c best then c else best) b) ∈ b :: xs := by
  intro xs
  induction xs with
  | nil => intro b; exact List.mem_singleton.mpr rfl
  | cons y ys ih =>
    intro b
    simp only [List.foldl_cons]
    by_cases hgt : gt y b = true
    · rw [if_pos hgt]
      exact List.mem_cons_of_mem _ (ih y)
    · rw [if_neg hgt]
      rcases List.mem_cons.mp (ih b) with h | h
      · rw [h]
        exact List.mem_cons_self _ _
      · exact List.mem_cons_of_mem _ (List.mem_cons_of_mem _ h)

theorem pymaxBy_mem {gt : String → String → Bool} {l : List String} {x : String}
    (h : pymaxBy gt l = some x) : x ∈ l := by
  cases l with
  | nil => cases h
  | cons b xs =>
    have hx : x = xs.foldl (fun best c => if gt c best then c else best) b :=
      (Option.some_inj.mp h).symm
    rw [hx]
    exact foldl_choice_mem gt xs b

theorem chooseBest_mem {dkp : String → DecNum} {cnt : String → Nat} {l : List String} {x : String}
    (h : chooseBest dkp cnt l = some x) : x ∈ l := pymaxBy_mem h

theorem decideChoice_some_cap {ctx : RunCtx} {toons : List String} {dkp : String → DecNum}
    {cnt : String → Nat} {icnt : String → String → Nat} {norm : String} {c : String}
    (h : decideChoice ctx toons dkp cnt icnt norm = some c) :
    c ∈ toons ∧ icnt c norm < capFor ctx norm c ∧ 0 < capFor ctx norm c := by
  unfold decideChoice at h
  rcases hreq : reqFor ctx norm with ⟨ra, rs⟩
  rw [hreq] at h
  simp only [] at h
  have hcapFor : ∀ t, capFor ctx norm t
      = toonCountN ctx norm ra rs (lookupD ctx.dkp_elemental_map norm) t := by
    intro t
    simp only [capFor, hreq]
  by_cases ht : toons = []
  · rw [if_pos ht] at h
    cases h
  rw [if_neg ht] at h
  rcases hcand : whichToonsN ctx norm ra rs (lookupD ctx.dkp_elemental_map norm) toons
    with _ | ⟨c1, cs⟩
  · rw [hcand] at h
    cases h
  · have hsub : ∀ t, t ∈ c1 :: cs → t ∈ toons := by
      intro t hmem
      rw [← hcand] at hmem
      rw [whichToonsN_eq_filter] at hmem
      exact (List.mem_filter.mp hmem).1
    cases cs with
    | nil =>
      rw [hcand] at h
      simp only [] at h
      by_cases hcond : (decide ((lookupD (itemCountPerToonN ctx norm ra rs
            (lookupD ctx.dkp_elemental_map norm) toons) c1).getD 0 > 0) &&
          decide (icnt c1 norm < (lookupD (itemCountPerToonN ctx norm ra rs
            (lookupD ctx.dkp_elemental_map norm) toons) c1).getD 0)) = true
      · rw [if_pos hcond] at h
        have hc1 : c = c1 := (Option.some_inj.mp h).symm
        subst hc1
        have hmem : c ∈ toons := hsub c (List.mem_cons_self _ _)
        have hlk : lookupD (itemCountPerToonN ctx norm ra rs
            (lookupD ctx.dkp_elemental_map norm) toons) c
            = some (toonCountN ctx norm ra rs (lookupD ctx.dkp_elemental_map norm) c) := by
          unfold itemCountPerToonN
          exact lookupD_map_pair hmem
        rw [hlk] at hcond
        simp only [Option.getD_some, Bool.and_eq_true, decide_eq_true_eq] at hcond
        exact ⟨hmem, by rw [hcapFor c]; exact hcond.2, by rw [hcapFor c]; exact hcond.1⟩
      · rw [if_neg (by simpa using hcond)] at h
        cases h
    | cons c2 cs2 =>
      rw [hcand] at h
      simp only [] at h
      rcases hunder : List.filter (fun t =>
          decide ((lookupD (itemCountPerToonN ctx norm ra rs
            (lookupD ctx.dkp_elemental_map norm) toons) t).getD 0 > 0) &&
          decide (icnt t norm < (lookupD (itemCountPerToonN ctx norm ra rs
            (lookupD ctx.dkp_elemental_map norm) toons) t).getD 0)) (c1 :: c2 :: cs2)
        with _ | ⟨u1, us⟩
      · rw [hunder] at h
        cases h
      · rw [hunder] at h
        have hcm : c ∈ u1 :: us := chooseBest_mem h
        rw [← hunder] at hcm
        have hmemf := List.mem_filter.mp hcm
        have hmem : c ∈ toons := hsub c hmemf.1
        have hlk : lookupD (itemCountPerToonN ctx norm ra rs
            (lookupD ctx.dkp_elemental_map norm) toons) c
            = some (toonCountN ctx norm ra rs (lookupD ctx.dkp_elemental_map norm) c) := by
          unfold itemCountPerToonN
          exact lookupD_map_pair hmem
        have hconds := hmemf.2
        rw [hlk] at hconds
        simp only [Option.getD_some, Bool.and_eq_true, decide_eq_true_eq] at hconds
        exact ⟨hmem, by rw [hcapFor c]; exact hconds.2, by rw [hcapFor c]; exact hconds.1⟩

theorem updF2_mono (f : String → String → Nat) (a b c k : String) :
    f c k ≤ (updF f a (updF (f a) b (f a b + 1))) c k := by
  unfold updF
  by_cases h1 : c = a
  · subst h1
    by_cases h2 : k = b
    · subst h2
      simp
    · simp [h2]
  · simp [h1]

theorem processIdx_icnt_mono {ctx : RunCtx} {clear : Bool} {rows : List LootRow}
    {manual : Nat → Bool} {toons : List String} {st : AccSt} {idx : Nat} {st' : AccSt}
    (h : processIdx ctx clear rows manual toons st idx = some st') (c k : String) :
    st.icnt c k ≤ st'.icnt c k := by
  rcases processIdx_inv h with ⟨-, rfl⟩ | ⟨-, -, ⟨-, rfl⟩ | ⟨cost, -, -, rfl⟩⟩ |
    ⟨-, -, cost, -, ⟨-, rfl⟩ | ⟨cx, -, rfl⟩⟩
  · exact le_refl _
  · exact le_refl _
  · show st.icnt c k ≤ (foldStep st _ cost _).icnt c k
    unfold foldStep
    simp only []
    split
    · exact updF2_mono st.icnt _ _ c k
    · exact le_refl _
  · exact le_refl _
  · show st.icnt c k ≤ (assignStep st idx cx _ cost _).icnt c k
    unfold assignStep
    simp only []
    exact updF2_mono st.icnt _ _ c k

theorem foldlM_asg_not_mem {ctx : RunCtx} {clear : Bool} {rows : List LootRow}
    {manual : Nat → Bool} {toons : List String} {j : Nat} :
    ∀ {idxs : List Nat} {st stF : AccSt}, j ∉ idxs →
      List.foldlM (processIdx ctx clear rows manual toons) st idxs = some stF →
      stF.asg j = st.asg j := by
  intro idxs
  induction idxs with
  | nil =>
    intro st stF _ h
    rw [Option.some_inj.mp h]
  | cons i is ih =>
    intro st stF hj h
    rw [List.foldlM_cons] at h
    rcases Option.bind_eq_some.mp h with ⟨st₁, h₁, h₂⟩
    rw [ih (fun hmem => hj (List.mem_cons_of_mem _ hmem)) h₂,
      processIdx_asg_untouched h₁ (fun he => hj (he ▸ List.mem_cons_self _ _))]

/-- The rows newly assigned by the engine in one account pass to
character `c` under normalized item key `k`: unassigned before the pass,
assigned to `c` after it, with the row's item normalizing to `k`. -/
def newlyAssignedP (rows : List LootRow) (asg0 asgF : Nat → AState) (c k : String)
    (i : Nat) : Bool :=
  !(optTruthy (asg0 i).cid || optTruthy (asg0 i).name) &&
  decide ((asgF i).cid = some c) &&
  decide (normalize_item_name (pyStrip ((rows.getD i default).item_name)) = k)

theorem c3_aux (ctx : RunCtx) (clear : Bool) (rows : List LootRow) (manual : Nat → Bool)
    (toons : List String) (asg0 : Nat → AState) (c k : String) (hc : c ≠ "") :
    ∀ (idxs : List Nat) (st stF : AccSt),
      idxs.Nodup →
      (∀ i ∈ idxs, st.asg i = asg0 i) →
      List.foldlM (processIdx ctx clear rows manual toons) st idxs = some stF →
      ((idxs.filter (newlyAssignedP rows asg0 stF.asg c k)).length + st.icnt c k
          ≤ capFor ctx k c) ∨
      (idxs.filter (newlyAssignedP rows asg0 stF.asg c k)).length = 0 := by
  intro idxs
  induction idxs with
  | nil =>
    intro st stF _ _ _
    right
    rfl
  | cons idx rest ih =>
    intro st stF hnd hu h
    rw [List.foldlM_cons] at h
    rcases Option.bind_eq_some.mp h with ⟨st₁, h₁, h₂⟩
    have hmemrest : idx ∉ rest := (List.nodup_cons.mp hnd).1
    have hu' : ∀ i ∈ rest, st₁.asg i = asg0 i := by
      intro i hi
      rw [processIdx_asg_untouched h₁ (fun he => hmemrest (he ▸ hi)),
        hu i (List.mem_cons_of_mem _ hi)]
    have hIH := ih st₁ stF (List.nodup_cons.mp hnd).2 hu' h₂
    have hFidx : stF.asg idx = st₁.asg idx := foldlM_asg_not_mem hmemrest h₂
    have hmono : st.icnt c k ≤ st₁.icnt c k := processIdx_icnt_mono h₁ c k
    rcases processIdx_inv h₁ with ⟨-, hst⟩ | ⟨-, -, ⟨-, hst⟩ | ⟨cost, -, -, hst⟩⟩ |
      ⟨-, -, cost, -, ⟨-, hst⟩ | ⟨cx, hdc, hst⟩⟩
    all_goals (try (
      -- cases in which the assignment array is unchanged at idx
      have hPfalse : newlyAssignedP rows asg0 stF.asg c k idx = false := by
        unfold newlyAssignedP
        rw [hFidx, hst]
        first
          | (show (_ && decide ((st.asg idx).cid = some c) && _) = false
             rw [hu idx (List.mem_cons_self _ _)]
             by_cases hcc : (asg0 idx).cid = some c
             · have hocc : optTruthy (asg0 idx).cid = true := by
                 rw [hcc]
                 simpa [optTruthy] using hc
               simp [hocc]
             · simp [hcc])
          | (show (_ && decide ((foldStep st _ _ _).asg idx).cid = some c && _) = false
             rw [foldStep_asg, hu idx (List.mem_cons_self _ _)]
             by_cases hcc : (asg0 idx).cid = some c
             · have hocc : optTruthy (asg0 idx).cid = true := by
                 rw [hcc]
                 simpa [optTruthy] using hc
               simp [hocc]
             · simp [hcc])
      rw [List.filter_cons_of_neg (by simp [hPfalse])]
      rcases hIH with hl | hr
      · exact Or.inl (le_trans (by omega) hl)
      · exact Or.inr hr))
    by_cases hP : newlyAssignedP rows asg0 stF.asg c k idx = true
    · have hPP := hP
      unfold newlyAssignedP at hPP
      rw [hFidx, hst, assignStep_asg] at hPP
      have hval : (updF st.asg idx ⟨some cx, some (assignName ctx cx), true⟩) idx
          = ⟨some cx, some (assignName ctx cx), true⟩ := by
        simp [updF]
      rw [hval] at hPP
      simp only [Bool.and_eq_true, decide_eq_true_eq] at hPP
      obtain ⟨⟨hpre, hcid⟩, hkey⟩ := hPP
      have hcxc : cx = c := Option.some_inj.mp hcid
      rw [hcxc] at hst hdc
      obtain ⟨hmem, hlt, hpos⟩ := decideChoice_some_cap hdc
      rw [hkey] at hlt
      have hicnt : st₁.icnt c k = st.icnt c k + 1 := by
        rw [hst]
        show (updF st.icnt c (updF (st.icnt c)
            (normalize_item_name (pyStrip (rows.getD idx default).item_name))
            (st.icnt c (normalize_item_name (pyStrip (rows.getD idx default).item_name)) + 1))) c k
          = st.icnt c k + 1
        rw [hkey]
        unfold updF
        simp
      rw [List.filter_cons_of_pos (by simp [hP])]
      simp only [List.length_cons]
      rcases hIH with hl | hr
      · left
        rw [hicnt] at hl
        omega
      · left
        rw [hr]
        omega
    · have hPfalse : newlyAssignedP rows asg0 stF.asg c k idx = false := by
        simpa using hP
      rw [List.filter_cons_of_neg (by simp [hPfalse])]
      rcases hIH with hl | hr
      · exact Or.inl (le_trans (by omega) hl)
      · exact Or.inr hr

/-- C3 counterexample: a manual row can name a character who holds zero
copies of the item.  Here the manual assignment to character `1` stands
in the output while `item_count_per_toon` reports a held-count of `0`:
counting manual (and preserved) assignments, the per-(character, key)
total exceeds the held-count. -/
theorem c3_manual_assignment_exceeds_cap :
    (runEngine ({} : RunCtx) false rowsManualOverCap).map
      (fun p => p.1.map LootRow.assigned_char_id) = some ["1"] ∧
    item_count_per_toon ({} : RunCtx) "Cloak of Embers" none none none ["1"] = [("1", 0)] := by
  decide

/-- C3 amended: within one account pass, the number of rows *newly
assigned by the engine* to a character for a normalized item key never
exceeds that character's held-count for the key (`capFor`, the
`magelo_count_per_toon` entry).  Rows carrying manual or previously
preserved assignments are folded into the running totals but are not
themselves re-checked against the cap, so they can exceed it. -/
theorem c3_machine_assignments_capped (ctx : RunCtx) (clear : Bool) (rows : List LootRow)
    (manual : Nat → Bool) (toons : List String) (asg0 : Nat → AState) (idxs : List Nat)
    (asgF : Nat → AState) (c k : String)
    (hc : c ≠ "") (hnd : idxs.Nodup)
    (h : processGroup ctx clear rows manual toons asg0 idxs = some asgF) :
    (idxs.filter (newlyAssignedP rows asg0 asgF c k)).length ≤ capFor ctx k c := by
  unfold processGroup at h
  rcases Option.map_eq_some'.mp h with ⟨stF, hfold, hval⟩
  have haux := c3_aux ctx clear rows manual toons asg0 c k hc idxs
    ⟨asg0, fun _ => DecNum.zero, fun _ => 0, fun _ _ => 0⟩ stF hnd (fun _ _ => rfl) hfold
  rw [← hval]
  rcases haux with hl | hr
  · omega
  · rw [hr]
    exact Nat.zero_le _

/-- Witness for `c3_machine_assignments_capped` on the Scenario B group. -/
theorem c3_machine_assignments_capped_witness :
    ∃ asgF, processGroup ctxB false rowsB (manualOnly false rowsB) (toonsFor ctxB "Y")
        (initAssign false rowsB) [0, 1] = some asgF ∧
      ([0, 1].filter (newlyAssignedP rowsB (initAssign false rowsB) asgF "1"
        "cloak of embers")).length ≤ capFor ctxB "cloak of embers" "1" := by
  match hh : processGroup ctxB false rowsB (manualOnly false rowsB) (toonsFor ctxB "Y")
      (initAssign false rowsB) [0, 1] with
  | some asgF =>
    exact ⟨asgF, rfl, c3_machine_assignments_capped ctxB false rowsB (manualOnly false rowsB)
      (toonsFor ctxB "Y") (initAssign false rowsB) [0, 1] asgF "1" "cloak of embers"
      (by decide) (by decide) hh⟩
  | none =>
    have hsome : (processGroup ctxB false rowsB (manualOnly false rowsB) (toonsFor ctxB "Y")
        (initAssign false rowsB) [0, 1]).isSome = true := by decide
    rw [hh] at hsome
    exact absurd hsome (by simp)

/-! ## C4 — idempotence of the incremental mode

The counterexample `rowsIdem` below shows the claim fails as stated: a
row whose prior assignment carries an `assigned_via_magelo` value other
than `"0"`/`"1"` (here: empty) is folded into the running totals on the
first run but — its flag having been re-serialized as `"0"` — is treated
as a preserved manual row on the second run and no longer folded, so a
later at-cap row flips to assigned.  The amended theorem proves full
idempotence under the loader-guaranteed well-formedness of the directory
tables plus two input sanity conditions on the ledger. -/

theorem pyStrip_empty : pyStrip "" = "" := rfl

theorem lookupD_mem {α : Type} {d : List (String × α)} {k : String} {v : α}
    (h : lookupD d k = some v) : (k, v) ∈ d := by
  unfold lookupD at h
  rcases Option.map_eq_some'.mp h with ⟨p, hp, hv⟩
  have hmem := List.mem_of_find?_eq_some hp
  have hpred := List.find?_some hp
  simp only [decide_eq_true_eq] at hpred
  rcases p with ⟨k', v'⟩
  cases hpred
  cases hv
  exact hmem

/-- A string is "clean" when it is non-empty and strip-invariant. -/
def cleanStr (s : String) : Prop := s ≠ "" ∧ pyStrip s = s

/-- Loader-guaranteed well-formedness of the directory tables: account
ids, member char ids, name-table keys and char ids, and display names are
stripped (non-empty where the loaders require truthiness). -/
def ctxGood (ctx : RunCtx) : Prop :=
  (∀ p ∈ ctx.char_to_account, cleanStr p.2) ∧
  (∀ p ∈ ctx.account_to_chars, ∀ c ∈ p.2, cleanStr c) ∧
  (∀ p ∈ ctx.name_to_char, pyStrip p.1 = p.1 ∧ cleanStr p.2) ∧
  (∀ p ∈ ctx.dkp_char_id_to_name, pyStrip p.2 = p.2) ∧
  (∀ p ∈ ctx.magelo_id_to_name, pyStrip p.2 = p.2)

/-- Ledger row sanity for idempotence: a non-manual row carrying an
assignment has `assigned_via_magelo` equal to `"0"` or `"1"`. -/
def rowGoodVia (row : LootRow) : Prop :=
  isExplicitManual row = true ∨
  (pyStrip row.assigned_char_id = "" ∧ pyStrip row.assigned_character_name = "") ∨
  pyStrip row.assigned_via_magelo = "0" ∨ pyStrip row.assigned_via_magelo = "1"

theorem pyOrS_strip {a b : String} (ha : pyStrip a = a) (hb : pyStrip b = b) :
    pyStrip (pyOrS a b) = pyOrS a b := by
  unfold pyOrS
  by_cases h : a = ""
  · rw [if_pos h]
    exact hb
  · rw [if_neg h]
    exact ha

theorem pyOrS_clean {a b : String} (ha : pyStrip a = a) (hb : cleanStr b) :
    cleanStr (pyOrS a b) := by
  unfold pyOrS
  by_cases h : a = ""
  · rw [if_pos h]
    exact hb
  · rw [if_neg h]
    exact ⟨h, ha⟩

theorem lookupD_getD_strip {d : List (String × String)} {k : String}
    (hd : ∀ p ∈ d, pyStrip p.2 = p.2) : pyStrip ((lookupD d k).getD "") = (lookupD d k).getD "" := by
  rcases hl : lookupD d k with _ | v
  · exact pyStrip_empty
  · exact hd _ (lookupD_mem hl)

theorem assignName_clean {ctx : RunCtx} (hg : ctxGood ctx) {c : String} (hc : cleanStr c) :
    cleanStr (assignName ctx c) := by
  unfold assignName
  exact pyOrS_clean (lookupD_getD_strip hg.2.2.2.1)
    (pyOrS_clean (lookupD_getD_strip hg.2.2.2.2) hc)

theorem groupKey_good {ctx : RunCtx} (hg : ctxGood ctx) (row : LootRow) :
    groupKey ctx row = "_unknown" ∨ cleanStr (groupKey ctx row) := by
  unfold groupKey
  rcases hres : resolve_buyer_account ctx row with _ | acc
  · simp only []
    by_cases hcid : pyStrip row.char_id ≠ ""
    · rw [if_pos hcid]
      exact Or.inr ⟨hcid, pyStrip_idem _⟩
    · rw [if_neg hcid]
      by_cases hname : (pyStrip row.character_name ≠ "" &&
          (lookupD ctx.name_to_char (pyStrip row.character_name)).isSome) = true
      · rw [if_pos hname]
        simp only [Bool.and_eq_true, Option.isSome_iff_exists] at hname
        rcases hname.2 with ⟨v, hv⟩
        rw [hv]
        exact Or.inr (hg.2.2.1 _ (lookupD_mem hv)).2
      · rw [if_neg hname]
        exact Or.inl rfl
  · -- the resolved account id comes from char_to_account's values
    simp only []
    unfold resolve_buyer_account at hres
    by_cases h1 : (pyStrip row.char_id ≠ "" &&
        (lookupD ctx.char_to_account (pyStrip row.char_id)).isSome) = true
    · rw [if_pos h1] at hres
      exact Or.inr (hg.1 _ (lookupD_mem hres))
    · rw [if_neg h1] at hres
      by_cases h2 : pyStrip row.character_name ≠ ""
      · rw [if_pos h2] at hres
        by_cases h3 : (pyOrS ((lookupD ctx.name_to_char (pyStrip row.character_name)).getD "")
              ((lookupD ctx.name_to_char (normalize_item_name
                (pyStrip row.character_name))).getD "") ≠ "" &&
            (lookupD ctx.char_to_account
              (pyOrS ((lookupD ctx.name_to_char (pyStrip row.character_name)).getD "")
                ((lookupD ctx.name_to_char (normalize_item_name
                  (pyStrip row.character_name))).getD ""))).isSome) = true
        · rw [if_pos h3] at hres
          exact Or.inr (hg.1 _ (lookupD_mem hres))
        · rw [if_neg h3] at hres
          cases hres
      · rw [if_neg h2] at hres
        cases hres

theorem toonsFor_good {ctx : RunCtx} (hg : ctxGood ctx) {key : String}
    (hk : key = "_unknown" ∨ cleanStr key) :
    ∀ c ∈ toonsFor ctx key, cleanStr c := by
  unfold toonsFor
  intro c hc
  by_cases ht : (lookupD ctx.account_to_chars key).getD [] = []
  · rw [if_pos ht] at hc
    rcases hk with hk | hk
    · rw [if_pos hk] at hc
      cases hc
    · by_cases hu : key = "_unknown"
      · rw [if_pos hu] at hc
        cases hc
      · rw [if_neg hu] at hc
        rw [List.mem_singleton.mp hc]
        exact hk
  · rw [if_neg ht] at hc
    rcases hl : lookupD ctx.account_to_chars key with _ | t
    · rw [hl] at ht
      exact absurd rfl ht
    · rw [hl] at hc
      exact hg.2.1 _ (lookupD_mem hl) c hc

theorem resolveOne_not_truthy {ctx : RunCtx} {a : AState}
    (hn : optTruthy a.name = false) (hc : a.cid.getD "" ≠ "") :
    resolveOne ctx a =
      ⟨a.cid, some (
        let cid := a.cid.getD ""
        let n1 := pyOrS ((lookupD ctx.dkp_char_id_to_name cid).getD "")
          (pyOrS ((lookupD ctx.magelo_id_to_name ((lookupD (dkpToMagelo ctx) cid).getD "")).getD "")
                 ((lookupD ctx.magelo_id_to_name cid).getD ""))
        let n2 := if n1 ≠ "" then n1
          else ((ctx.name_to_char.find?
            (fun p => p.2 = cid && p.1 ≠ "" && ¬ pyIsdigit p.1)).map (·.1)).getD ""
        if n2 ≠ "" then n2 else cid), a.viaMagelo⟩ := by
  unfold resolveOne
  rw [if_neg (by rw [hn]; simp), if_neg hc]

theorem resolveOne_good {ctx : RunCtx} (hg : ctxGood ctx) {a : AState} {cid : String}
    (hn : optTruthy a.name = false) (hcid : a.cid = some cid) (hclean : cleanStr cid) :
    ∃ n, resolveOne ctx a = ⟨a.cid, some n, a.viaMagelo⟩ ∧ cleanStr n := by
  have hgd : a.cid.getD "" = cid := by
    rw [hcid]
    rfl
  rw [resolveOne_not_truthy hn (by rw [hgd]; exact hclean.1)]
  refine ⟨_, rfl, ?_⟩
  simp only [hgd]
  have hn1s : pyStrip (pyOrS ((lookupD ctx.dkp_char_id_to_name cid).getD "")
      (pyOrS ((lookupD ctx.magelo_id_to_name ((lookupD (dkpToMagelo ctx) cid).getD "")).getD "")
             ((lookupD ctx.magelo_id_to_name cid).getD ""))) =
      pyOrS ((lookupD ctx.dkp_char_id_to_name cid).getD "")
      (pyOrS ((lookupD ctx.magelo_id_to_name ((lookupD (dkpToMagelo ctx) cid).getD "")).getD "")
             ((lookupD ctx.magelo_id_to_name cid).getD "")) :=
    pyOrS_strip (lookupD_getD_strip hg.2.2.2.1)
      (pyOrS_strip (lookupD_getD_strip hg.2.2.2.2) (lookupD_getD_strip hg.2.2.2.2))
  by_cases h1 : pyOrS ((lookupD ctx.dkp_char_id_to_name cid).getD "")
      (pyOrS ((lookupD ctx.magelo_id_to_name ((lookupD (dkpToMagelo ctx) cid).getD "")).getD "")
             ((lookupD ctx.magelo_id_to_name cid).getD "")) ≠ ""
  · rw [if_pos h1]
    rw [if_pos h1]
    exact ⟨h1, hn1s⟩
  · rw [if_neg h1]
    rcases hf : ctx.name_to_char.find?
        (fun p => p.2 = cid && p.1 ≠ "" && ¬ pyIsdigit p.1) with _ | p
    · rw [hf]
      simp only [Option.map_none', Option.getD_none]
      rw [if_neg (by simp)]
      exact hclean
    · rw [hf]
      simp only [Option.map_some', Option.getD_some]
      have hpred := List.find?_some hf
      simp only [Bool.and_eq_true, decide_eq_true_eq] at hpred
      have hmem := List.mem_of_find?_eq_some hf
      rw [if_pos (by simpa using hpred.1.2)]
      exact ⟨by simpa using hpred.1.2, (hg.2.2.1 _ hmem).1⟩

theorem resolveOne_idem (ctx : RunCtx) (a : AState) :
    resolveOne ctx (resolveOne ctx a) = resolveOne ctx a := by
  by_cases hn : optTruthy a.name = true
  · rw [resolveOne_of_truthy hn, resolveOne_of_truthy hn]
  · have hn' : optTruthy a.name = false := by simpa using hn
    by_cases hc : a.cid.getD "" = ""
    · have hfix : resolveOne ctx a = a := by
        unfold resolveOne
        rw [if_neg (by rw [hn']; simp), if_pos hc]
      rw [hfix, hfix]
    · rw [resolveOne_not_truthy hn' hc]
      apply resolveOne_of_truthy
      show optTruthy (some _) = true
      simp only [optTruthy, Option.getD_some]
      by_cases h2 : (if pyOrS ((lookupD ctx.dkp_char_id_to_name (a.cid.getD "")).getD "")
          (pyOrS ((lookupD ctx.magelo_id_to_name
              ((lookupD (dkpToMagelo ctx) (a.cid.getD "")).getD "")).getD "")
            ((lookupD ctx.magelo_id_to_name (a.cid.getD "")).getD "")) ≠ "" then
          pyOrS ((lookupD ctx.dkp_char_id_to_name (a.cid.getD "")).getD "")
          (pyOrS ((lookupD ctx.magelo_id_to_name
              ((lookupD (dkpToMagelo ctx) (a.cid.getD "")).getD "")).getD "")
            ((lookupD ctx.magelo_id_to_name (a.cid.getD "")).getD ""))
        else ((ctx.name_to_char.find?
          (fun p => p.2 = a.cid.getD "" && p.1 ≠ "" && ¬ pyIsdigit p.1)).map (·.1)).getD "") ≠ ""
      · rw [if_pos h2]
        exact decide_eq_true h2
      · rw [if_neg h2]
        exact decide_eq_true hc

/-! ## C4 — idempotence of the incremental mode: groundwork -/

theorem AState_default : (default : AState) = ⟨none, none, false⟩ := rfl

theorem initAssign_lt {rows : List LootRow} {i : Nat} {r : LootRow} (clear : Bool)
    (h : rows.get? i = some r) : initAssign clear rows i = (preprocessRow clear r).1 := by
  unfold initAssign
  rw [h]

theorem manualOnly_lt {rows : List LootRow} {i : Nat} {r : LootRow} (clear : Bool)
    (h : rows.get? i = some r) : manualOnly clear rows i = (preprocessRow clear r).2 := by
  unfold manualOnly
  rw [h]

theorem initAssign_oob {rows : List LootRow} {i : Nat} (clear : Bool)
    (h : rows.length ≤ i) : initAssign clear rows i = ⟨none, none, false⟩ := by
  unfold initAssign
  rw [List.get?_eq_none.mpr h]
  rfl

theorem manualOnly_oob {rows : List LootRow} {i : Nat} (clear : Bool)
    (h : rows.length ≤ i) : manualOnly clear rows i = false := by
  unfold manualOnly
  rw [List.get?_eq_none.mpr h]

theorem dedupAux_sub {x : String} :
    ∀ (l seen : List String), x ∈ dedupAux seen l → x ∈ l := by
  intro l
  induction l with
  | nil => intro seen h; cases h
  | cons k rest ih =>
    intro seen h
    unfold dedupAux at h
    by_cases hk : seen.elem k
    · rw [if_pos hk] at h
      exact List.mem_cons_of_mem _ (ih seen h)
    · rw [if_neg hk] at h
      rcases List.mem_cons.mp h with h | h
      · rw [h]; exact List.mem_cons_self _ _
      · exact List.mem_cons_of_mem _ (ih (k :: seen) h)

theorem dedupAux_nodup :
    ∀ (l seen : List String), (dedupAux seen l).Nodup ∧ ∀ x ∈ dedupAux seen l, x ∉ seen := by
  intro l
  induction l with
  | nil => intro seen; exact ⟨List.nodup_nil, fun x h => absurd h (List.not_mem_nil x)⟩
  | cons k rest ih =>
    intro seen
    unfold dedupAux
    by_cases hk : seen.elem k
    · rw [if_pos hk]
      exact ih seen
    · rw [if_neg hk]
      obtain ⟨hnd, hout⟩ := ih (k :: seen)
      refine ⟨List.nodup_cons.mpr ⟨fun hmem => ?_, hnd⟩, ?_⟩
      · exact (hout k hmem) (List.mem_cons_self _ _)
      · intro x hx hxs
        rcases List.mem_cons.mp hx with h | h
        · rw [h] at hxs
          exact hk ((List.elem_iff).mpr hxs)
        · exact (hout x h) (List.mem_cons_of_mem _ hxs)

theorem accountKeys_nodup (ctx : RunCtx) (rows : List LootRow) :
    (accountKeys ctx rows).Nodup := (dedupAux_nodup _ []).1

theorem accountKeys_mem {ctx : RunCtx} {rows : List LootRow} {k : String}
    (h : k ∈ accountKeys ctx rows) :
    ∃ i, i < rows.length ∧ k = groupKey ctx (rows.getD i default) := by
  have h2 := dedupAux_sub _ [] h
  rcases List.mem_map.mp h2 with ⟨i, hi, hk⟩
  exact ⟨i, List.mem_range.mp hi, hk.symm⟩

theorem accountKeys_toons_clean {ctx : RunCtx} (hg : ctxGood ctx) (rows : List LootRow) :
    ∀ k ∈ accountKeys ctx rows, ∀ c ∈ toonsFor ctx k, cleanStr c := by
  intro k hk
  obtain ⟨i, -, hkey⟩ := accountKeys_mem hk
  rw [hkey]
  exact toonsFor_good hg (groupKey_good hg _)

theorem insSorted_perm (key : Nat → String × String × String × Nat) (x : Nat) :
    ∀ l : List Nat, (insSorted key x l).Perm (x :: l) := by
  intro l
  induction l with
  | nil => exact List.Perm.refl _
  | cons y ys ih =>
    unfold insSorted
    by_cases h : keyLt (key x) (key y)
    · rw [if_pos h]
    · rw [if_neg h]
      exact (List.Perm.cons y ih).trans (List.Perm.swap x y ys)

theorem sortIndices_foldl_perm (key : Nat → String × String × String × Nat) :
    ∀ (l acc : List Nat), (l.foldl (fun a x => insSorted key x a) acc).Perm (l ++ acc) := by
  intro l
  induction l with
  | nil => intro acc; simp
  | cons x xs ih =>
    intro acc
    rw [List.foldl_cons]
    refine (ih (insSorted key x acc)).trans ?_
    refine (List.Perm.append_left xs (insSorted_perm key x acc)).trans ?_
    have hmid : (xs ++ x :: acc).Perm (x :: (xs ++ acc)) := List.perm_middle
    simpa using hmid.symm

theorem sortIndices_perm (key : Nat → String × String × String × Nat) (l : List Nat) :
    (sortIndices key l).Perm l := by
  unfold sortIndices
  simpa using sortIndices_foldl_perm key l []

theorem mem_sortIndices {key : Nat → String × String × String × Nat} {l : List Nat} {x : Nat} :
    x ∈ sortIndices key l ↔ x ∈ l := (sortIndices_perm key l).mem_iff

theorem sortIndices_nodup {key : Nat → String × String × String × Nat} {l : List Nat}
    (h : l.Nodup) : (sortIndices key l).Nodup := ((sortIndices_perm key l).nodup_iff).mpr h

theorem groupIdxs_mem {ctx : RunCtx} {rows : List LootRow} {k : String} {j : Nat} :
    j ∈ groupIdxs ctx rows k ↔
      j < rows.length ∧ groupKey ctx (rows.getD j default) = k := by
  unfold groupIdxs
  rw [List.mem_filter, List.mem_range]
  simp

theorem groupIdxs_nodup (ctx : RunCtx) (rows : List LootRow) (k : String) :
    (groupIdxs ctx rows k).Nodup := (List.nodup_range _).filter _

theorem preprocessRow_manual {r : LootRow} (clear : Bool) (h : isExplicitManual r = true) :
    preprocessRow clear r =
      (⟨strToOpt (pyStrip r.assigned_char_id),
        strToOpt (pyStrip r.assigned_character_name), false⟩, true) := by
  simp only [preprocessRow, h, if_true]

theorem preprocessRow_legacy {r : LootRow} (h1 : isExplicitManual r = false)
    (h2 : pyStrip r.assigned_via_magelo = "0")
    (h3 : ¬(pyStrip r.assigned_char_id = "" ∧ pyStrip r.assigned_character_name = "")) :
    preprocessRow false r =
      (⟨strToOpt (pyStrip r.assigned_char_id),
        strToOpt (pyStrip r.assigned_character_name), false⟩, true) := by
  have hex : (decide (pyStrip r.assigned_char_id ≠ "") ||
      decide (pyStrip r.assigned_character_name ≠ "")) = true := by
    by_cases hac : pyStrip r.assigned_char_id = ""
    · by_cases han : pyStrip r.assigned_character_name = ""
      · exact absurd ⟨hac, han⟩ h3
      · simp [han]
    · simp [hac]
  simp only [preprocessRow, h1, h2, hex]
  simp

theorem preprocessRow_existing {r : LootRow} (h1 : isExplicitManual r = false)
    (h2 : pyStrip r.assigned_via_magelo ≠ "0")
    (h3 : ¬(pyStrip r.assigned_char_id = "" ∧ pyStrip r.assigned_character_name = "")) :
    preprocessRow false r =
      (⟨strToOpt (pyStrip r.assigned_char_id),
        strToOpt (pyStrip r.assigned_character_name),
        decide (pyStrip r.assigned_via_magelo = "1")⟩, false) := by
  have hex : (decide (pyStrip r.assigned_char_id ≠ "") ||
      decide (pyStrip r.assigned_character_name ≠ "")) = true := by
    by_cases hac : pyStrip r.assigned_char_id = ""
    · by_cases han : pyStrip r.assigned_character_name = ""
      · exact absurd ⟨hac, han⟩ h3
      · simp [han]
    · simp [hac]
  simp only [preprocessRow, h1, hex]
  simp [h2]

theorem preprocessRow_empty {r : LootRow} (h1 : isExplicitManual r = false)
    (hac : pyStrip r.assigned_char_id = "")
    (han : pyStrip r.assigned_character_name = "") :
    preprocessRow false r = (⟨none, none, false⟩, false) := by
  simp [preprocessRow, h1, hac, han, strToOpt]

theorem preprocessRow_unassigned {r : LootRow}
    (hP2 : (preprocessRow false r).2 = false)
    (hc : optTruthy (preprocessRow false r).1.cid = false)
    (hn : optTruthy (preprocessRow false r).1.name = false) :
    (preprocessRow false r).1 = ⟨none, none, false⟩ := by
  by_cases hEM : isExplicitManual r = true
  · rw [preprocessRow_manual false hEM] at hP2
    cases hP2
  · have h1 : isExplicitManual r = false := by simpa using hEM
    by_cases hboth : pyStrip r.assigned_char_id = "" ∧ pyStrip r.assigned_character_name = ""
    · rw [preprocessRow_empty h1 hboth.1 hboth.2]
    · by_cases h2 : pyStrip r.assigned_via_magelo = "0"
      · rw [preprocessRow_legacy h1 h2 hboth] at hP2
        cases hP2
      · rw [preprocessRow_existing h1 h2 hboth] at hc hn
        simp only [optTruthy, strToOpt_getD, decide_eq_false_iff_not, not_not] at hc hn
        exact absurd ⟨hc, hn⟩ hboth

theorem initAssign_unassigned {rows : List LootRow} {i : Nat}
    (hm : manualOnly false rows i = false)
    (hc : optTruthy (initAssign false rows i).cid = false)
    (hn : optTruthy (initAssign false rows i).name = false) :
    initAssign false rows i = ⟨none, none, false⟩ := by
  rcases hr : rows.get? i with _ | r
  · unfold initAssign
    rw [hr]
    rfl
  · rw [initAssign_lt false hr] at hc hn ⊢
    rw [manualOnly_lt false hr] at hm
    exact preprocessRow_unassigned hm hc hn

/-- The shape every entry of the assignment array can have during and
after the allocation pass of a `clear = false` run: either its initial
(preprocessed) value, or — only for a row that started unassigned and is
not manual-only — a fresh machine assignment to a clean character id with
its looked-up display name and the via-magelo flag set. -/
def run1Shape (ctx : RunCtx) (rows : List LootRow) (g : Nat → AState) : Prop :=
  ∀ i, g i = initAssign false rows i ∨
    (initAssign false rows i = ⟨none, none, false⟩ ∧ manualOnly false rows i = false ∧
     ∃ c, cleanStr c ∧ g i = ⟨some c, some (assignName ctx c), true⟩)

theorem processIdx_shape {ctx : RunCtx} {rows : List LootRow} {toons : List String}
    {st st' : AccSt} {idx : Nat}
    (h : processIdx ctx false rows (manualOnly false rows) toons st idx = some st')
    (htc : ∀ c ∈ toons, cleanStr c)
    (hs : run1Shape ctx rows st.asg) : run1Shape ctx rows st'.asg := by
  rcases processIdx_inv h with ⟨-, rfl⟩ | ⟨-, -, ⟨-, rfl⟩ | ⟨cost, -, -, rfl⟩⟩ |
    ⟨hm, hguard, cost, -, ⟨-, rfl⟩ | ⟨c, hdc, rfl⟩⟩
  · exact hs
  · exact hs
  · rw [foldStep_asg]
    exact hs
  · exact hs
  · rw [assignStep_asg]
    intro j
    by_cases hj : j = idx
    · subst hj
      have hfalsy : (optTruthy (st.asg j).cid || optTruthy (st.asg j).name) = false := by
        simpa using hguard
      have hfc : optTruthy (st.asg j).cid = false := by
        rcases Bool.or_eq_false_iff.mp hfalsy with ⟨h1, h2⟩
        exact h1
      have hfn : optTruthy (st.asg j).name = false := by
        rcases Bool.or_eq_false_iff.mp hfalsy with ⟨h1, h2⟩
        exact h2
      have hinit : st.asg j = initAssign false rows j := by
        rcases hs j with h1 | ⟨-, -, c', hc', h2⟩
        · exact h1
        · rw [h2] at hfc
          rw [optTruthy] at hfc
          simp only [Option.getD_some] at hfc
          rw [decide_eq_false_iff_not, not_not] at hfc
          exact absurd hfc hc'.1
      rw [hinit] at hfc hfn
      have hzero : initAssign false rows j = ⟨none, none, false⟩ :=
        initAssign_unassigned hm hfc hfn
      refine Or.inr ⟨hzero, hm, c, htc c (decideChoice_some_cap hdc).1, ?_⟩
      rw [updF]
      simp
    · have hne : updF st.asg idx ⟨some c, some (assignName ctx c), true⟩ j = st.asg j := by
        unfold updF
        rw [if_neg hj]
      rw [hne]
      exact hs j

theorem foldlM_shape {ctx : RunCtx} {rows : List LootRow} {toons : List String}
    (htc : ∀ c ∈ toons, cleanStr c) :
    ∀ {idxs : List Nat} {st stF : AccSt},
      List.foldlM (processIdx ctx false rows (manualOnly false rows) toons) st idxs = some stF →
      run1Shape ctx rows st.asg → run1Shape ctx rows stF.asg := by
  intro idxs
  induction idxs with
  | nil =>
    intro st stF h hs
    rw [← Option.some_inj.mp h]
    exact hs
  | cons j js ih =>
    intro st stF h hs
    rw [List.foldlM_cons] at h
    rcases Option.bind_eq_some.mp h with ⟨st₁, h₁, h₂⟩
    exact ih h₂ (processIdx_shape h₁ htc hs)

theorem processGroup_shape {ctx : RunCtx} {rows : List LootRow} {toons : List String}
    {asg asgF : Nat → AState} {idxs : List Nat}
    (h : processGroup ctx false rows (manualOnly false rows) toons asg idxs = some asgF)
    (htc : ∀ c ∈ toons, cleanStr c)
    (hs : run1Shape ctx rows asg) : run1Shape ctx rows asgF := by
  unfold processGroup at h
  rcases Option.map_eq_some'.mp h with ⟨stF, hfold, hval⟩
  rw [← hval]
  exact foldlM_shape htc hfold hs

theorem runFold_shape {ctx : RunCtx} {rows : List LootRow} (hg : ctxGood ctx) :
    ∀ {keys : List String} {g gF : Nat → AState},
      (∀ k ∈ keys, ∀ c ∈ toonsFor ctx k, cleanStr c) →
      List.foldlM
        (fun asg k =>
          processGroup ctx false rows (manualOnly false rows) (toonsFor ctx k) asg
            (sortIndices (lootSortKey ctx rows) (groupIdxs ctx rows k)))
        g keys = some gF →
      run1Shape ctx rows g → run1Shape ctx rows gF := by
  intro keys
  induction keys with
  | nil =>
    intro g gF _ h hs
    rw [← Option.some_inj.mp h]
    exact hs
  | cons k ks ih =>
    intro g gF htc h hs
    rw [List.foldlM_cons] at h
    rcases Option.bind_eq_some.mp h with ⟨g₁, h₁, h₂⟩
    exact ih (fun k' hk' => htc k' (List.mem_cons_of_mem _ hk'))
      h₂ (processGroup_shape h₁ (htc k (List.mem_cons_self _ _)) hs)

/-! ### The second run sees the same row skeleton -/

theorem outRow_absorb (a : AState) (r : LootRow) : outRow a (outRow a r) = outRow a r := rfl

theorem isExplicitManual_outRow (a : AState) (r : LootRow) :
    isExplicitManual (outRow a r) = isExplicitManual r := rfl

theorem groupKey_outRow (ctx : RunCtx) (a : AState) (r : LootRow) :
    groupKey ctx (outRow a r) = groupKey ctx r := rfl

theorem resolveOne_zero (ctx : RunCtx) :
    resolveOne ctx ⟨none, none, false⟩ = ⟨none, none, false⟩ := by
  simp [resolveOne, optTruthy]

theorem assignName_ne {ctx : RunCtx} {c : String} (h : c ≠ "") : assignName ctx c ≠ "" := by
  unfold assignName pyOrS
  by_cases h1 : (lookupD ctx.dkp_char_id_to_name c).getD "" = ""
  · rw [if_pos h1]
    by_cases h2 : (lookupD ctx.magelo_id_to_name
        ((lookupD (dkpToMagelo ctx) c).getD "")).getD "" = ""
    · rw [if_pos h2]
      exact h
    · rw [if_neg h2]
      exact h2
  · rw [if_neg h1]
    exact h1

theorem buildOutput_getD (asg : Nat → AState) (rows : List LootRow) {j : Nat}
    (hj : j < rows.length) :
    (buildOutput asg rows).getD j default = outRow (asg j) (rows.getD j default) := by
  show ((buildOutput asg rows).get? j).getD default = outRow (asg j) ((rows.get? j).getD default)
  rw [buildOutput_get?]
  rcases hr : rows.get? j with _ | r
  · rw [List.get?_eq_none] at hr
    omega
  · rfl

theorem buildOutput_getD_all (asg : Nat → AState) (rows : List LootRow)
    (hres : ∀ i, rows.length ≤ i → outRow (asg i) default = default) : ∀ j,
    (buildOutput asg rows).getD j default = outRow (asg j) (rows.getD j default) := by
  intro j
  by_cases hj : j < rows.length
  · exact buildOutput_getD asg rows hj
  · show ((buildOutput asg rows).get? j).getD default = outRow (asg j) ((rows.get? j).getD default)
    rw [buildOutput_get?, List.get?_eq_none.mpr (show rows.length ≤ j by omega)]
    show default = outRow (asg j) default
    exact (hres j (by omega)).symm

theorem getD_oob {α : Type} [Inhabited α] {l : List α} {i : Nat} (h : l.length ≤ i) :
    l.getD i default = default := by
  show ((l.get? i)).getD default = default
  rw [List.get?_eq_none.mpr h]
  rfl

theorem lootSortKey_buildOutput (ctx : RunCtx) (asg : Nat → AState) (rows : List LootRow) :
    lootSortKey ctx (buildOutput asg rows) = lootSortKey ctx rows := by
  funext i
  simp only [lootSortKey]
  by_cases hi : i < rows.length
  · rw [buildOutput_getD asg rows hi]
    rfl
  · rw [getD_oob (show (buildOutput asg rows).length ≤ i by rw [buildOutput_length]; omega),
      getD_oob (show rows.length ≤ i by omega)]

theorem groupKey_getD_buildOutput (ctx : RunCtx) (asg : Nat → AState) (rows : List LootRow)
    (i : Nat) :
    groupKey ctx ((buildOutput asg rows).getD i default) = groupKey ctx (rows.getD i default) := by
  by_cases hi : i < rows.length
  · rw [buildOutput_getD asg rows hi]
    rfl
  · rw [getD_oob (show (buildOutput asg rows).length ≤ i by rw [buildOutput_length]; omega),
      getD_oob (show rows.length ≤ i by omega)]

theorem groupIdxs_buildOutput (ctx : RunCtx) (asg : Nat → AState) (rows : List LootRow) :
    groupIdxs ctx (buildOutput asg rows) = groupIdxs ctx rows := by
  funext k
  unfold groupIdxs
  rw [buildOutput_length]
  congr 1
  funext i
  rw [groupKey_getD_buildOutput]

theorem accountKeys_buildOutput (ctx : RunCtx) (asg : Nat → AState) (rows : List LootRow) :
    accountKeys ctx (buildOutput asg rows) = accountKeys ctx rows := by
  unfold accountKeys
  rw [buildOutput_length]
  congr 1
  congr 1
  funext i
  rw [groupKey_getD_buildOutput]

theorem buildOutputAux_absorb (asg : Nat → AState) :
    ∀ (rows : List LootRow) (i : Nat),
      buildOutputAux asg i (buildOutputAux asg i rows) = buildOutputAux asg i rows := by
  intro rows
  induction rows with
  | nil => intro i; rfl
  | cons r rs ih =>
    intro i
    show outRow (asg i) (outRow (asg i) r) :: buildOutputAux asg (i + 1) (buildOutputAux asg (i + 1) rs)
      = outRow (asg i) r :: buildOutputAux asg (i + 1) rs
    rw [outRow_absorb, ih]

theorem buildOutput_absorb (asg : Nat → AState) (rows : List LootRow) :
    buildOutput asg (buildOutput asg rows) = buildOutput asg rows :=
  buildOutputAux_absorb asg rows 0

theorem countGlobal_length_congr {rows₁ rows₂ : List LootRow}
    (h : rows₁.length = rows₂.length) (asg : Nat → AState) :
    countGlobal rows₁ asg = countGlobal rows₂ asg := by
  unfold countGlobal
  rw [h]

theorem nameByCid_length_congr (ctx : RunCtx) {rows₁ rows₂ : List LootRow}
    (h : rows₁.length = rows₂.length) (asg : Nat → AState) :
    nameByCid ctx rows₁ asg = nameByCid ctx rows₂ asg := by
  unfold nameByCid
  rw [h]

theorem buildCounts_length_congr (ctx : RunCtx) {rows₁ rows₂ : List LootRow}
    (h : rows₁.length = rows₂.length) (asg : Nat → AState) :
    buildCounts ctx rows₁ asg = buildCounts ctx rows₂ asg := by
  unfold buildCounts
  rw [countGlobal_length_congr h, nameByCid_length_congr ctx h]

theorem AState_ext {a b : AState} (h1 : a.cid = b.cid) (h2 : a.name = b.name)
    (h3 : a.viaMagelo = b.viaMagelo) : a = b := by
  cases a
  cases b
  simp_all

theorem outRow_ac (a : AState) (r : LootRow) :
    (outRow a r).assigned_char_id = a.cid.getD "" := rfl

theorem outRow_an (a : AState) (r : LootRow) :
    (outRow a r).assigned_character_name = a.name.getD "" := rfl

theorem outRow_via (a : AState) (r : LootRow) :
    (outRow a r).assigned_via_magelo = if a.viaMagelo then "1" else "0" := rfl

theorem resolveOne_pre {ctx : RunCtx} (hg : ctxGood ctx) {x y : String}
    (hx : pyStrip x = x) (hy : pyStrip y = y) (v : Bool) :
    (resolveOne ctx ⟨strToOpt x, strToOpt y, v⟩).cid = strToOpt x ∧
    (resolveOne ctx ⟨strToOpt x, strToOpt y, v⟩).viaMagelo = v ∧
    strToOpt (pyStrip ((resolveOne ctx ⟨strToOpt x, strToOpt y, v⟩).name.getD "")) =
      (resolveOne ctx ⟨strToOpt x, strToOpt y, v⟩).name ∧
    (pyStrip ((resolveOne ctx ⟨strToOpt x, strToOpt y, v⟩).name.getD "") = "" ↔
      (y = "" ∧ x = "")) := by
  by_cases hyE : y = ""
  · by_cases hxE : x = ""
    · subst hyE hxE
      have hz : resolveOne ctx ⟨strToOpt "", strToOpt "", v⟩ = ⟨none, none, v⟩ := by
        show resolveOne ctx ⟨none, none, v⟩ = ⟨none, none, v⟩
        simp [resolveOne, optTruthy]
      rw [hz]
      refine ⟨rfl, rfl, rfl, ?_⟩
      simp [pyStrip_empty]
    · subst hyE
      have hcid : (⟨strToOpt x, strToOpt "", v⟩ : AState).cid = some x := by
        show strToOpt x = some x
        unfold strToOpt
        rw [if_neg hxE]
      obtain ⟨n, heq, hcn⟩ := resolveOne_good hg
        (show optTruthy (⟨strToOpt x, strToOpt "", v⟩ : AState).name = false from rfl)
        hcid ⟨hxE, hx⟩
      rw [heq]
      refine ⟨rfl, rfl, ?_, ?_⟩
      · show strToOpt (pyStrip n) = some n
        rw [hcn.2]
        unfold strToOpt
        rw [if_neg hcn.1]
      · show pyStrip n = "" ↔ ("" = "" ∧ x = "")
        rw [hcn.2]
        simp [hcn.1, hxE]
  · have htr : optTruthy (⟨strToOpt x, strToOpt y, v⟩ : AState).name = true := by
      show optTruthy (strToOpt y) = true
      rw [optTruthy_strToOpt]
      exact decide_eq_true hyE
    rw [resolveOne_of_truthy htr]
    refine ⟨rfl, rfl, ?_, ?_⟩
    · show strToOpt (pyStrip ((strToOpt y).getD "")) = strToOpt y
      rw [strToOpt_getD, hy]
    · show pyStrip ((strToOpt y).getD "") = "" ↔ (y = "" ∧ x = "")
      rw [strToOpt_getD, hy]
      simp [hyE]

set_option maxHeartbeats 2000000 in
/-- What the second run's preprocessing pass sees for one serialized row:
the name-resolved state round-trips exactly, and the row keeps (or loses)
its manual-only status exactly as in the first run. -/
theorem preproc_out {ctx : RunCtx} (hg : ctxGood ctx) {r : LootRow} {A : AState}
    (hvia : rowGoodVia r)
    (hA : A = (preprocessRow false r).1 ∨
      (preprocessRow false r = (⟨none, none, false⟩, false) ∧
       ∃ c, cleanStr c ∧ A = ⟨some c, some (assignName ctx c), true⟩)) :
    preprocessRow false (outRow (resolveOne ctx A) r) =
      (resolveOne ctx A, (preprocessRow false r).2) := by
  by_cases hEM : isExplicitManual r = true
  · have hP := preprocessRow_manual false hEM
    rcases hA with hA1 | ⟨hP2, -⟩
    · have hA2 : A = ⟨strToOpt (pyStrip r.assigned_char_id),
          strToOpt (pyStrip r.assigned_character_name), false⟩ := by
        rw [hA1, hP]
      subst hA2
      obtain ⟨hcid, hvv, hnrt, hnem⟩ :=
        resolveOne_pre hg (pyStrip_idem r.assigned_char_id)
          (pyStrip_idem r.assigned_character_name) false
      have hEMout : isExplicitManual (outRow (resolveOne ctx
          ⟨strToOpt (pyStrip r.assigned_char_id),
           strToOpt (pyStrip r.assigned_character_name), false⟩) r) = true := by
        rw [isExplicitManual_outRow]
        exact hEM
      rw [preprocessRow_manual false hEMout, hP]
      simp only [outRow_ac, outRow_an, Prod.mk.injEq]
      refine ⟨AState_ext ?_ ?_ ?_, by trivial⟩
      · rw [hcid, strToOpt_getD, pyStrip_idem]
      · exact hnrt
      · exact hvv.symm
    · rw [hP] at hP2
      have h2 : (true : Bool) = false := congrArg Prod.snd hP2
      cases h2
  · have h1 : isExplicitManual r = false := by simpa using hEM
    rcases hA with hA1 | ⟨hP2, c, hc, hAv⟩
    · by_cases hboth : pyStrip r.assigned_char_id = "" ∧ pyStrip r.assigned_character_name = ""
      · have hPe := preprocessRow_empty h1 hboth.1 hboth.2
        have hA2 : A = ⟨none, none, false⟩ := by
          rw [hA1, hPe]
        subst hA2
        rw [resolveOne_zero]
        have h1o : isExplicitManual (outRow (⟨none, none, false⟩ : AState) r) = false := by
          rw [isExplicitManual_outRow]
          exact h1
        have hac : pyStrip ((outRow (⟨none, none, false⟩ : AState) r).assigned_char_id) = "" := by
          rw [outRow_ac]
          exact pyStrip_empty
        have han : pyStrip
            ((outRow (⟨none, none, false⟩ : AState) r).assigned_character_name) = "" := by
          rw [outRow_an]
          exact pyStrip_empty
        rw [preprocessRow_empty h1o hac han, hPe]
      · rcases hvia with hv | hv | hv0 | hv1
        · rw [h1] at hv
          cases hv
        · exact absurd hv hboth
        · have hP := preprocessRow_legacy h1 hv0 hboth
          have hA2 : A = ⟨strToOpt (pyStrip r.assigned_char_id),
              strToOpt (pyStrip r.assigned_character_name), false⟩ := by
            rw [hA1, hP]
          subst hA2
          obtain ⟨hcid, hvv, hnrt, hnem⟩ :=
            resolveOne_pre hg (pyStrip_idem r.assigned_char_id)
              (pyStrip_idem r.assigned_character_name) false
          have h1o : isExplicitManual (outRow (resolveOne ctx
              ⟨strToOpt (pyStrip r.assigned_char_id),
               strToOpt (pyStrip r.assigned_character_name), false⟩) r) = false := by
            rw [isExplicitManual_outRow]
            exact h1
          have hv0o : pyStrip ((outRow (resolveOne ctx
              ⟨strToOpt (pyStrip r.assigned_char_id),
               strToOpt (pyStrip r.assigned_character_name), false⟩) r).assigned_via_magelo)
              = "0" := by
            rw [outRow_via, hvv]
            decide
          have h3o : ¬(pyStrip ((outRow (resolveOne ctx
              ⟨strToOpt (pyStrip r.assigned_char_id),
               strToOpt (pyStrip r.assigned_character_name), false⟩) r).assigned_char_id) = ""
              ∧ pyStrip ((outRow (resolveOne ctx
              ⟨strToOpt (pyStrip r.assigned_char_id),
               strToOpt (pyStrip r.assigned_character_name), false⟩) r).assigned_character_name)
              = "") := by
            rw [outRow_ac, outRow_an]
            intro hcon
            apply hboth
            have h1c := hcon.1
            rw [hcid, strToOpt_getD, pyStrip_idem] at h1c
            exact ⟨h1c, (hnem.mp hcon.2).1⟩
          rw [preprocessRow_legacy h1o hv0o h3o, hP]
          simp only [outRow_ac, outRow_an, Prod.mk.injEq]
          refine ⟨AState_ext ?_ ?_ ?_, by trivial⟩
          · rw [hcid, strToOpt_getD, pyStrip_idem]
          · exact hnrt
          · exact hvv.symm
        · have hP := preprocessRow_existing h1 (by rw [hv1]; decide) hboth
          have hA2 : A = ⟨strToOpt (pyStrip r.assigned_char_id),
              strToOpt (pyStrip r.assigned_character_name), true⟩ := by
            rw [hA1, hP]
            simp [hv1]
          subst hA2
          obtain ⟨hcid, hvv, hnrt, hnem⟩ :=
            resolveOne_pre hg (pyStrip_idem r.assigned_char_id)
              (pyStrip_idem r.assigned_character_name) true
          have h1o : isExplicitManual (outRow (resolveOne ctx
              ⟨strToOpt (pyStrip r.assigned_char_id),
               strToOpt (pyStrip r.assigned_character_name), true⟩) r) = false := by
            rw [isExplicitManual_outRow]
            exact h1
          have hv1o : pyStrip ((outRow (resolveOne ctx
              ⟨strToOpt (pyStrip r.assigned_char_id),
               strToOpt (pyStrip r.assigned_character_name), true⟩) r).assigned_via_magelo)
              ≠ "0" := by
            rw [outRow_via, hvv]
            decide
          have h3o : ¬(pyStrip ((outRow (resolveOne ctx
              ⟨strToOpt (pyStrip r.assigned_char_id),
               strToOpt (pyStrip r.assigned_character_name), true⟩) r).assigned_char_id) = ""
              ∧ pyStrip ((outRow (resolveOne ctx
              ⟨strToOpt (pyStrip r.assigned_char_id),
               strToOpt (pyStrip r.assigned_character_name), true⟩) r).assigned_character_name)
              = "") := by
            rw [outRow_ac, outRow_an]
            intro hcon
            apply hboth
            have h1c := hcon.1
            rw [hcid, strToOpt_getD, pyStrip_idem] at h1c
            exact ⟨h1c, (hnem.mp hcon.2).1⟩
          rw [preprocessRow_existing h1o hv1o h3o, hP]
          simp only [outRow_ac, outRow_an, outRow_via, Prod.mk.injEq]
          refine ⟨AState_ext ?_ ?_ ?_, by trivial⟩
          · rw [hcid, strToOpt_getD, pyStrip_idem]
          · exact hnrt
          · simp only [hvv]
            decide
    · subst hAv
      have hnm : assignName ctx c ≠ "" := assignName_ne hc.1
      have hnclean : cleanStr (assignName ctx c) := assignName_clean hg hc
      have htr : optTruthy (⟨some c, some (assignName ctx c), true⟩ : AState).name = true := by
        show optTruthy (some (assignName ctx c)) = true
        unfold optTruthy
        simp [hnm]
      rw [resolveOne_of_truthy htr, hP2]
      have h1o : isExplicitManual
          (outRow (⟨some c, some (assignName ctx c), true⟩ : AState) r) = false := by
        rw [isExplicitManual_outRow]
        exact h1
      have hv1o : pyStrip ((outRow (⟨some c, some (assignName ctx c), true⟩ : AState)
          r).assigned_via_magelo) ≠ "0" := by
        rw [outRow_via]
        show pyStrip (if (true : Bool) = true then "1" else "0") ≠ "0"
        decide
      have h3o : ¬(pyStrip ((outRow (⟨some c, some (assignName ctx c), true⟩ : AState)
          r).assigned_char_id) = "" ∧
          pyStrip ((outRow (⟨some c, some (assignName ctx c), true⟩ : AState)
          r).assigned_character_name) = "") := by
        rw [outRow_ac]
        intro hcon
        apply hc.1
        have h1c := hcon.1
        rw [show ((⟨some c, some (assignName ctx c), true⟩ : AState).cid.getD "") = c from rfl,
          hc.2] at h1c
        exact h1c
      rw [preprocessRow_existing h1o hv1o h3o]
      simp only [outRow_ac, outRow_an, outRow_via, Prod.mk.injEq]
      refine ⟨AState_ext ?_ ?_ ?_, by trivial⟩
      · show strToOpt (pyStrip ((some c).getD "")) = some c
        show strToOpt (pyStrip c) = some c
        rw [hc.2]
        unfold strToOpt
        rw [if_neg hc.1]
      · show strToOpt (pyStrip ((some (assignName ctx c)).getD "")) = some (assignName ctx c)
        show strToOpt (pyStrip (assignName ctx c)) = some (assignName ctx c)
        rw [hnclean.2]
        unfold strToOpt
        rw [if_neg hnclean.1]
      · show decide (pyStrip (if True then "1" else "0") = "1") = true
        decide

theorem outRow_cost (a : AState) (r : LootRow) : (outRow a r).cost = r.cost := rfl

theorem outRow_item (a : AState) (r : LootRow) : (outRow a r).item_name = r.item_name := rfl

theorem updF_self {κ ν : Type} [DecidableEq κ] (f : κ → ν) (k : κ) (v : ν) :
    updF f k v k = v := by
  unfold updF
  simp

theorem foldStep_cnt (st : AccSt) (cid : String) (cost : DecNum) (norm : String) :
    (foldStep st cid cost norm).cnt = updF st.cnt cid (st.cnt cid + 1) := rfl

theorem foldStep_dkp (st : AccSt) (cid : String) (cost : DecNum) (norm : String) :
    (foldStep st cid cost norm).dkp = updF st.dkp cid (DecNum.add (st.dkp cid) cost) := rfl

theorem foldStep_icnt (st : AccSt) (cid : String) (cost : DecNum) (norm : String) :
    (foldStep st cid cost norm).icnt = if norm ≠ "" then
        updF st.icnt cid (updF (st.icnt cid) norm (st.icnt cid norm + 1))
      else st.icnt := rfl

theorem assignStep_cnt (st : AccSt) (idx : Nat) (c name : String) (cost : DecNum)
    (norm : String) : (assignStep st idx c name cost norm).cnt = updF st.cnt c (st.cnt c + 1) := rfl

theorem assignStep_dkp (st : AccSt) (idx : Nat) (c name : String) (cost : DecNum)
    (norm : String) :
    (assignStep st idx c name cost norm).dkp = updF st.dkp c (DecNum.add (st.dkp c) cost) := rfl

theorem assignStep_icnt (st : AccSt) (idx : Nat) (c name : String) (cost : DecNum)
    (norm : String) :
    (assignStep st idx c name cost norm).icnt =
      updF st.icnt c (updF (st.icnt c) norm (st.icnt c norm + 1)) := rfl

theorem resolveOne_falsy {ctx : RunCtx} {a : AState} (hn : optTruthy a.name = false)
    (hc : a.cid.getD "" = "") : resolveOne ctx a = a := by
  unfold resolveOne
  rw [if_neg (by rw [hn]; simp), if_pos hc]

theorem processIdx_eval_manual {ctx : RunCtx} {clear : Bool} {rows : List LootRow}
    {manual : Nat → Bool} {toons : List String} {st : AccSt} {idx : Nat}
    (hm : manual idx = true) :
    processIdx ctx clear rows manual toons st idx = some st := by
  unfold processIdx
  rw [hm]
  simp only [if_true]

theorem processIdx_eval_skip {ctx : RunCtx} {clear : Bool} {rows : List LootRow}
    {manual : Nat → Bool} {toons : List String} {st : AccSt} {idx : Nat}
    (hm : manual idx = false)
    (htr : (!clear && (optTruthy (st.asg idx).cid || optTruthy (st.asg idx).name)) = true)
    (hce : (st.asg idx).cid.getD "" = "") :
    processIdx ctx clear rows manual toons st idx = some st := by
  unfold processIdx
  rw [hm]
  simp only [Bool.false_eq_true, if_false]
  rw [htr]
  simp only [if_true]
  rw [if_pos hce]

theorem processIdx_eval_fold {ctx : RunCtx} {clear : Bool} {rows : List LootRow}
    {manual : Nat → Bool} {toons : List String} {st : AccSt} {idx : Nat} {cost : DecNum}
    (hm : manual idx = false)
    (htr : (!clear && (optTruthy (st.asg idx).cid || optTruthy (st.asg idx).name)) = true)
    (hce : (st.asg idx).cid.getD "" ≠ "")
    (hco : pyCost (rows.getD idx default).cost = some cost) :
    processIdx ctx clear rows manual toons st idx =
      some (foldStep st ((st.asg idx).cid.getD "") cost
        (normalize_item_name (rows.getD idx default).item_name)) := by
  unfold processIdx
  rw [hm]
  simp only [Bool.false_eq_true, if_false]
  rw [htr]
  simp only [if_true]
  rw [if_neg hce, hco]
  simp only [Option.map_some']

theorem processIdx_eval_decide_none {ctx : RunCtx} {clear : Bool} {rows : List LootRow}
    {manual : Nat → Bool} {toons : List String} {st : AccSt} {idx : Nat} {cost : DecNum}
    (hm : manual idx = false)
    (htr : (!clear && (optTruthy (st.asg idx).cid || optTruthy (st.asg idx).name)) = false)
    (hco : pyCost (rows.getD idx default).cost = some cost)
    (hdc : decideChoice ctx toons st.dkp st.cnt st.icnt
      (normalize_item_name (pyStrip (rows.getD idx default).item_name)) = none) :
    processIdx ctx clear rows manual toons st idx = some st := by
  unfold processIdx
  rw [hm]
  simp only [Bool.false_eq_true, if_false]
  rw [htr]
  simp only [Bool.false_eq_true, if_false]
  rw [hco]
  simp only [Option.map_some']
  rw [hdc]

theorem processIdx_eval_decide_some {ctx : RunCtx} {clear : Bool} {rows : List LootRow}
    {manual : Nat → Bool} {toons : List String} {st : AccSt} {idx : Nat} {cost : DecNum}
    {c : String}
    (hm : manual idx = false)
    (htr : (!clear && (optTruthy (st.asg idx).cid || optTruthy (st.asg idx).name)) = false)
    (hco : pyCost (rows.getD idx default).cost = some cost)
    (hdc : decideChoice ctx toons st.dkp st.cnt st.icnt
      (normalize_item_name (pyStrip (rows.getD idx default).item_name)) = some c) :
    processIdx ctx clear rows manual toons st idx =
      some (assignStep st idx c (assignName ctx c) cost
        (normalize_item_name (pyStrip (rows.getD idx default).item_name))) := by
  unfold processIdx
  rw [hm]
  simp only [Bool.false_eq_true, if_false]
  rw [htr]
  simp only [Bool.false_eq_true, if_false]
  rw [hco]
  simp only [Option.map_some']
  rw [hdc]

/-- One-account simulation: re-running the allocation loop on the
serialized output rows, starting from the resolved assignment array and
the same (zeroed) counters, succeeds, never changes an assignment, and
tracks the first run's counters step by step. -/
theorem innerSim {ctx : RunCtx} {rows rows' : List LootRow} {m : Nat → Bool}
    {toons : List String} {F : Nat → AState}
    (htc : ∀ c ∈ toons, cleanStr c) :
    ∀ (Is : List Nat) (St₁ St₂ St₁' : AccSt),
      List.foldlM (processIdx ctx false rows m toons) St₁ Is = some St₁' →
      Is.Nodup →
      (∀ j ∈ Is, F j = St₁'.asg j) →
      (∀ j ∈ Is, St₂.asg j = resolveOne ctx (F j)) →
      (∀ j ∈ Is, rows'.getD j default = outRow (resolveOne ctx (F j)) (rows.getD j default)) →
      (∀ j ∈ Is, normalize_item_name (pyStrip ((rows.getD j default).item_name)) ≠ "") →
      St₂.cnt = St₁.cnt → St₂.dkp = St₁.dkp → St₂.icnt = St₁.icnt →
      ∃ St₂', List.foldlM (processIdx ctx false rows' m toons) St₂ Is = some St₂' ∧
        St₂'.asg = St₂.asg ∧ St₂'.cnt = St₁'.cnt ∧ St₂'.dkp = St₁'.dkp ∧
        St₂'.icnt = St₁'.icnt := by
  intro Is
  induction Is with
  | nil =>
    intro St₁ St₂ St₁' h₁ _ _ _ _ _ hcnt hdkp hicnt
    cases Option.some_inj.mp h₁
    exact ⟨St₂, rfl, rfl, hcnt, hdkp, hicnt⟩
  | cons idx rest ih =>
    intro St₁ St₂ St₁' h₁ hnd hfin hR hrow' hnorm hcnt hdkp hicnt
    rw [List.foldlM_cons] at h₁
    rcases Option.bind_eq_some.mp h₁ with ⟨M₁, hM₁, hrest⟩
    have hninr : idx ∉ rest := (List.nodup_cons.mp hnd).1
    have hndr : rest.Nodup := (List.nodup_cons.mp hnd).2
    have hmemi : idx ∈ idx :: rest := List.mem_cons_self _ _
    have hFidx : F idx = St₁'.asg idx := hfin idx hmemi
    have hfr : St₁'.asg idx = M₁.asg idx := foldlM_asg_not_mem hninr hrest
    rcases processIdx_inv hM₁ with ⟨hm, heq⟩ | ⟨hm, hguard, ⟨hce, heq⟩ | ⟨cost, hce, hco, heq⟩⟩ |
      ⟨hm, hguard, cost, hco, ⟨hdc, heq⟩ | ⟨c, hdc, heq⟩⟩
    all_goals rw [heq] at hrest hfr
    · obtain ⟨T₂, hf₂, hasg₂, hc₂, hd₂, hi₂⟩ := ih St₁ St₂ St₁' hrest hndr
        (fun j hj => hfin j (List.mem_cons_of_mem _ hj))
        (fun j hj => hR j (List.mem_cons_of_mem _ hj))
        (fun j hj => hrow' j (List.mem_cons_of_mem _ hj))
        (fun j hj => hnorm j (List.mem_cons_of_mem _ hj))
        hcnt hdkp hicnt
      refine ⟨T₂, ?_, hasg₂, hc₂, hd₂, hi₂⟩
      rw [List.foldlM_cons, processIdx_eval_manual hm]
      exact hf₂
    · have hname : optTruthy (St₁.asg idx).name = true := by
        have hor : (optTruthy (St₁.asg idx).cid || optTruthy (St₁.asg idx).name) = true := by
          simpa using hguard
        have hcidf : optTruthy (St₁.asg idx).cid = false := by
          unfold optTruthy
          rw [hce]
          simp
        rw [hcidf] at hor
        simpa using hor
      have ha : St₂.asg idx = St₁.asg idx := by
        rw [hR idx hmemi, hFidx, hfr]
        exact resolveOne_of_truthy hname
      have htr₂ : (!false &&
          (optTruthy (St₂.asg idx).cid || optTruthy (St₂.asg idx).name)) = true := by
        rw [ha]
        exact hguard
      have hce₂ : (St₂.asg idx).cid.getD "" = "" := by
        rw [ha]
        exact hce
      obtain ⟨T₂, hf₂, hasg₂, hc₂, hd₂, hi₂⟩ := ih St₁ St₂ St₁' hrest hndr
        (fun j hj => hfin j (List.mem_cons_of_mem _ hj))
        (fun j hj => hR j (List.mem_cons_of_mem _ hj))
        (fun j hj => hrow' j (List.mem_cons_of_mem _ hj))
        (fun j hj => hnorm j (List.mem_cons_of_mem _ hj))
        hcnt hdkp hicnt
      refine ⟨T₂, ?_, hasg₂, hc₂, hd₂, hi₂⟩
      rw [List.foldlM_cons, processIdx_eval_skip hm htr₂ hce₂]
      exact hf₂
    · have ha : St₂.asg idx = resolveOne ctx (St₁.asg idx) := by
        rw [hR idx hmemi, hFidx, hfr, foldStep_asg]
      have hacid : (St₂.asg idx).cid = (St₁.asg idx).cid := by
        rw [ha, resolveOne_cid]
      have hce₂ : (St₂.asg idx).cid.getD "" ≠ "" := by
        rw [hacid]
        exact hce
      have htr₂ : (!false &&
          (optTruthy (St₂.asg idx).cid || optTruthy (St₂.asg idx).name)) = true := by
        have hct : optTruthy (St₂.asg idx).cid = true := by
          unfold optTruthy
          rw [hacid]
          exact decide_eq_true hce
        simp [hct]
      have hco₂ : pyCost ((rows'.getD idx default).cost) = some cost := by
        rw [hrow' idx hmemi, outRow_cost]
        exact hco
      have hitem₂ : (rows'.getD idx default).item_name = (rows.getD idx default).item_name := by
        rw [hrow' idx hmemi, outRow_item]
      have hM₂eq : foldStep St₂ ((St₂.asg idx).cid.getD "") cost
          (normalize_item_name ((rows'.getD idx default).item_name))
          = foldStep St₂ ((St₁.asg idx).cid.getD "") cost
            (normalize_item_name ((rows.getD idx default).item_name)) := by
        rw [hacid, hitem₂]
      obtain ⟨T₂, hf₂, hasg₂, hc₂, hd₂, hi₂⟩ :=
        ih (foldStep St₁ ((St₁.asg idx).cid.getD "") cost
            (normalize_item_name ((rows.getD idx default).item_name)))
          (foldStep St₂ ((St₁.asg idx).cid.getD "") cost
            (normalize_item_name ((rows.getD idx default).item_name)))
          St₁' hrest hndr
          (fun j hj => hfin j (List.mem_cons_of_mem _ hj))
          (fun j hj => by rw [foldStep_asg]; exact hR j (List.mem_cons_of_mem _ hj))
          (fun j hj => hrow' j (List.mem_cons_of_mem _ hj))
          (fun j hj => hnorm j (List.mem_cons_of_mem _ hj))
          (by rw [foldStep_cnt, foldStep_cnt, hcnt])
          (by rw [foldStep_dkp, foldStep_dkp, hdkp])
          (by rw [foldStep_icnt, foldStep_icnt, hicnt])
      refine ⟨T₂, ?_, ?_, hc₂, hd₂, hi₂⟩
      · rw [List.foldlM_cons, processIdx_eval_fold hm htr₂ hce₂ hco₂, hM₂eq]
        exact hf₂
      · rw [hasg₂, foldStep_asg]
    · have hor : (optTruthy (St₁.asg idx).cid || optTruthy (St₁.asg idx).name) = false := by
        simpa using hguard
      obtain ⟨hcidf, hnamef⟩ := Bool.or_eq_false_iff.mp hor
      have hgd : (St₁.asg idx).cid.getD "" = "" := by
        unfold optTruthy at hcidf
        simpa using hcidf
      have ha : St₂.asg idx = St₁.asg idx := by
        rw [hR idx hmemi, hFidx, hfr]
        exact resolveOne_falsy hnamef hgd
      have htr₂ : (!false &&
          (optTruthy (St₂.asg idx).cid || optTruthy (St₂.asg idx).name)) = false := by
        rw [ha]
        exact hguard
      have hco₂ : pyCost ((rows'.getD idx default).cost) = some cost := by
        rw [hrow' idx hmemi, outRow_cost]
        exact hco
      have hitem₂ : (rows'.getD idx default).item_name = (rows.getD idx default).item_name := by
        rw [hrow' idx hmemi, outRow_item]
      have hdc₂ : decideChoice ctx toons St₂.dkp St₂.cnt St₂.icnt
          (normalize_item_name (pyStrip ((rows'.getD idx default).item_name))) = none := by
        rw [hitem₂, hcnt, hdkp, hicnt]
        exact hdc
      obtain ⟨T₂, hf₂, hasg₂, hc₂, hd₂, hi₂⟩ := ih St₁ St₂ St₁' hrest hndr
        (fun j hj => hfin j (List.mem_cons_of_mem _ hj))
        (fun j hj => hR j (List.mem_cons_of_mem _ hj))
        (fun j hj => hrow' j (List.mem_cons_of_mem _ hj))
        (fun j hj => hnorm j (List.mem_cons_of_mem _ hj))
        hcnt hdkp hicnt
      refine ⟨T₂, ?_, hasg₂, hc₂, hd₂, hi₂⟩
      rw [List.foldlM_cons, processIdx_eval_decide_none hm htr₂ hco₂ hdc₂]
      exact hf₂
    · have hcmem : c ∈ toons := (decideChoice_some_cap hdc).1
      have hcclean : cleanStr c := htc c hcmem
      have hnm : assignName ctx c ≠ "" := assignName_ne hcclean.1
      have hFv : F idx = ⟨some c, some (assignName ctx c), true⟩ := by
        rw [hFidx, hfr, assignStep_asg, updF_self]
      have ha : St₂.asg idx = ⟨some c, some (assignName ctx c), true⟩ := by
        rw [hR idx hmemi, hFv]
        apply resolveOne_of_truthy
        show optTruthy (some (assignName ctx c)) = true
        unfold optTruthy
        simp [hnm]
      have htr₂ : (!false &&
          (optTruthy (St₂.asg idx).cid || optTruthy (St₂.asg idx).name)) = true := by
        rw [ha]
        show (!false && (optTruthy (some c) || optTruthy (some (assignName ctx c)))) = true
        unfold optTruthy
        simp [hcclean.1]
      have hce₂ : (St₂.asg idx).cid.getD "" ≠ "" := by
        rw [ha]
        show (some c).getD "" ≠ ""
        simpa using hcclean.1
      have hcidSt₂ : (St₂.asg idx).cid.getD "" = c := by
        rw [ha]
        rfl
      have hco₂ : pyCost ((rows'.getD idx default).cost) = some cost := by
        rw [hrow' idx hmemi, outRow_cost]
        exact hco
      have hitem₂ : (rows'.getD idx default).item_name = (rows.getD idx default).item_name := by
        rw [hrow' idx hmemi, outRow_item]
      have hni : normalize_item_name (pyStrip ((rows.getD idx default).item_name)) ≠ "" :=
        hnorm idx hmemi
      have hM₂eq : foldStep St₂ ((St₂.asg idx).cid.getD "") cost
          (normalize_item_name ((rows'.getD idx default).item_name))
          = foldStep St₂ c cost
            (normalize_item_name (pyStrip ((rows.getD idx default).item_name))) := by
        rw [hcidSt₂, hitem₂, normalize_pyStrip]
      obtain ⟨T₂, hf₂, hasg₂, hc₂, hd₂, hi₂⟩ :=
        ih (assignStep St₁ idx c (assignName ctx c) cost
            (normalize_item_name (pyStrip ((rows.getD idx default).item_name))))
          (foldStep St₂ c cost
            (normalize_item_name (pyStrip ((rows.getD idx default).item_name))))
          St₁' hrest hndr
          (fun j hj => hfin j (List.mem_cons_of_mem _ hj))
          (fun j hj => by rw [foldStep_asg]; exact hR j (List.mem_cons_of_mem _ hj))
          (fun j hj => hrow' j (List.mem_cons_of_mem _ hj))
          (fun j hj => hnorm j (List.mem_cons_of_mem _ hj))
          (by rw [foldStep_cnt, assignStep_cnt, hcnt])
          (by rw [foldStep_dkp, assignStep_dkp, hdkp])
          (by rw [foldStep_icnt, assignStep_icnt, if_pos hni, hicnt])
      refine ⟨T₂, ?_, ?_, hc₂, hd₂, hi₂⟩
      · rw [List.foldlM_cons, processIdx_eval_fold hm htr₂ hce₂ hco₂, hM₂eq]
        exact hf₂
      · rw [hasg₂, foldStep_asg]

theorem processGroup_not_mem {ctx : RunCtx} {clear : Bool} {rows : List LootRow}
    {manual : Nat → Bool} {toons : List String} {asg asgF : Nat → AState} {idxs : List Nat}
    {j : Nat} (h : processGroup ctx clear rows manual toons asg idxs = some asgF)
    (hj : j ∉ idxs) : asgF j = asg j := by
  unfold processGroup at h
  rcases Option.map_eq_some'.mp h with ⟨stF, hfold, hval⟩
  rw [← hval]
  exact foldlM_asg_not_mem hj hfold

theorem runFold_asg_frame {ctx : RunCtx} {rows : List LootRow} {j : Nat} :
    ∀ {keys : List String} {g gF : Nat → AState},
      (∀ k ∈ keys, j ∉ sortIndices (lootSortKey ctx rows) (groupIdxs ctx rows k)) →
      List.foldlM
        (fun asg k =>
          processGroup ctx false rows (manualOnly false rows) (toonsFor ctx k) asg
            (sortIndices (lootSortKey ctx rows) (groupIdxs ctx rows k)))
        g keys = some gF →
      gF j = g j := by
  intro keys
  induction keys with
  | nil =>
    intro g gF _ h
    rw [Option.some_inj.mp h]
  | cons k ks ih =>
    intro g gF hnm h
    rw [List.foldlM_cons] at h
    rcases Option.bind_eq_some.mp h with ⟨g₁, h₁, h₂⟩
    rw [ih (fun k' hk' => hnm k' (List.mem_cons_of_mem _ hk')) h₂,
      processGroup_not_mem h₁ (hnm k (List.mem_cons_self _ _))]

/-- Whole-pass simulation: re-running the bucket-by-bucket allocation on
the serialized rows, starting from the resolved assignment array, succeeds
and returns that array unchanged. -/
theorem outerSim {ctx : RunCtx} {rows rows' : List LootRow} {F : Nat → AState}
    (hrow' : ∀ j, j < rows.length →
      rows'.getD j default = outRow (resolveOne ctx (F j)) (rows.getD j default))
    (hnorm : ∀ j, j < rows.length →
      normalize_item_name (pyStrip ((rows.getD j default).item_name)) ≠ "") :
    ∀ (K : List String) (g : Nat → AState),
      K.Nodup →
      (∀ k ∈ K, ∀ c ∈ toonsFor ctx k, cleanStr c) →
      List.foldlM
        (fun asg k =>
          processGroup ctx false rows (manualOnly false rows) (toonsFor ctx k) asg
            (sortIndices (lootSortKey ctx rows) (groupIdxs ctx rows k)))
        g K = some F →
      List.foldlM
        (fun asg k =>
          processGroup ctx false rows' (manualOnly false rows) (toonsFor ctx k) asg
            (sortIndices (lootSortKey ctx rows) (groupIdxs ctx rows k)))
        (fun i => resolveOne ctx (F i)) K = some (fun i => resolveOne ctx (F i)) := by
  intro K
  induction K with
  | nil =>
    intro g _ _ _
    rfl
  | cons k ks ih =>
    intro g hnd htc h
    rw [List.foldlM_cons] at h
    rcases Option.bind_eq_some.mp h with ⟨g₁, h₁, h₂⟩
    have hknotks : k ∉ ks := (List.nodup_cons.mp hnd).1
    have hndks : ks.Nodup := (List.nodup_cons.mp hnd).2
    have h₁' := h₁
    unfold processGroup at h₁'
    rcases Option.map_eq_some'.mp h₁' with ⟨T₁, hT₁fold, hT₁asg⟩
    have hfin : ∀ j ∈ sortIndices (lootSortKey ctx rows) (groupIdxs ctx rows k),
        F j = T₁.asg j := by
      intro j hj
      have hjg : j ∈ groupIdxs ctx rows k := mem_sortIndices.mp hj
      have hkey : groupKey ctx (rows.getD j default) = k := (groupIdxs_mem.mp hjg).2
      have hframe : F j = g₁ j := by
        apply runFold_asg_frame ?_ h₂
        intro k' hk' hmem'
        have hkey' : groupKey ctx (rows.getD j default) = k' :=
          (groupIdxs_mem.mp (mem_sortIndices.mp hmem')).2
        rw [hkey] at hkey'
        rw [hkey'] at hknotks
        exact hknotks hk'
      rw [hframe, ← hT₁asg]
    obtain ⟨T₂, hT₂fold, hT₂asg, -, -, -⟩ :=
      innerSim
        (htc k (List.mem_cons_self _ _))
        (sortIndices (lootSortKey ctx rows) (groupIdxs ctx rows k))
        ⟨g, fun _ => DecNum.zero, fun _ => 0, fun _ _ => 0⟩
        ⟨fun i => resolveOne ctx (F i), fun _ => DecNum.zero, fun _ => 0, fun _ _ => 0⟩
        T₁ hT₁fold
        (sortIndices_nodup (groupIdxs_nodup ctx rows k))
        hfin
        (fun j _ => rfl)
        (fun j hj => hrow' j (groupIdxs_mem.mp (mem_sortIndices.mp hj)).1)
        (fun j hj => hnorm j (groupIdxs_mem.mp (mem_sortIndices.mp hj)).1)
        rfl rfl rfl
    have hstep₂ : processGroup ctx false rows' (manualOnly false rows) (toonsFor ctx k)
        (fun i => resolveOne ctx (F i))
        (sortIndices (lootSortKey ctx rows) (groupIdxs ctx rows k))
        = some (fun i => resolveOne ctx (F i)) := by
      unfold processGroup
      rw [hT₂fold]
      simp only [Option.map_some']
      rw [hT₂asg]
    rw [List.foldlM_cons, hstep₂]
    exact ih g₁ hndks (fun k' hk' => htc k' (List.mem_cons_of_mem _ hk')) h₂

/-- C4 (amended): with a well-formed directory (`ctxGood`), rows whose
`assigned_via_magelo` column is well-formed (`rowGoodVia`), and non-empty
normalized item names, running the engine a second time in incremental
mode on the first run's output ledger reproduces the first run's output
ledger and per-character counts exactly. -/
theorem c4_incremental_idempotent (ctx : RunCtx) (rows out : List LootRow)
    (counts : List CountRow)
    (hg : ctxGood ctx)
    (hvia : ∀ r ∈ rows, rowGoodVia r)
    (hitem : ∀ r ∈ rows, normalize_item_name (pyStrip r.item_name) ≠ "")
    (h : runEngine ctx false rows = some (out, counts)) :
    runEngine ctx false out = some (out, counts) := by
  obtain ⟨F, hfold, hout, hcounts⟩ := runEngine_out_shape h
  have hshape : run1Shape ctx rows F :=
    runFold_shape hg (accountKeys_toons_clean hg rows) hfold (fun i => Or.inl rfl)
  have hlen : out.length = rows.length := by
    rw [hout]
    exact buildOutput_length _ _
  have hget : ∀ j, j < rows.length → rows.get? j = some (rows.getD j default) := by
    intro j hj
    rcases hq : rows.get? j with _ | r
    · rw [List.get?_eq_none] at hq
      omega
    · show _ = some ((rows.get? j).getD default)
      rw [hq]
      rfl
  have hgeto : ∀ j, j < rows.length → out.get? j = some (out.getD j default) := by
    intro j hj
    rcases hq : out.get? j with _ | r
    · rw [List.get?_eq_none] at hq
      omega
    · show _ = some ((out.get? j).getD default)
      rw [hq]
      rfl
  have hrowD : ∀ j, j < rows.length →
      out.getD j default = outRow (resolveOne ctx (F j)) (rows.getD j default) := by
    intro j hj
    rw [hout]
    exact buildOutput_getD _ rows hj
  have hnorm : ∀ j, j < rows.length →
      normalize_item_name (pyStrip ((rows.getD j default).item_name)) ≠ "" := by
    intro j hj
    exact hitem _ (List.get?_mem (hget j hj))
  have hperidx : ∀ j, j < rows.length →
      preprocessRow false (out.getD j default) =
        (resolveOne ctx (F j), (preprocessRow false (rows.getD j default)).2) := by
    intro j hj
    rw [hrowD j hj]
    apply preproc_out hg
    · exact hvia _ (List.get?_mem (hget j hj))
    · rcases hshape j with h1 | ⟨hz, hm, c, hc, hv⟩
      · left
        rw [h1, initAssign_lt false (hget j hj)]
      · right
        refine ⟨?_, c, hc, hv⟩
        have e1 : (preprocessRow false (rows.getD j default)).1 = ⟨none, none, false⟩ := by
          rw [← initAssign_lt false (hget j hj)]
          exact hz
        have e2 : (preprocessRow false (rows.getD j default)).2 = false := by
          rw [← manualOnly_lt false (hget j hj)]
          exact hm
        have heta : preprocessRow false (rows.getD j default) =
            ((preprocessRow false (rows.getD j default)).1,
             (preprocessRow false (rows.getD j default)).2) := rfl
        rw [heta, e1, e2]
  have hinit2 : initAssign false out = fun i => resolveOne ctx (F i) := by
    funext i
    by_cases hi : i < rows.length
    · rw [initAssign_lt false (hgeto i hi), hperidx i hi]
    · have h1 : initAssign false out i = ⟨none, none, false⟩ :=
        initAssign_oob false (by omega)
      have hFi : F i = initAssign false rows i := by
        apply runFold_asg_frame ?_ hfold
        intro k _ hmem
        have hlt := (groupIdxs_mem.mp (mem_sortIndices.mp hmem)).1
        omega
      rw [h1, hFi, initAssign_oob false (by omega)]
      exact (resolveOne_zero ctx).symm
  have hman2 : manualOnly false out = manualOnly false rows := by
    funext i
    by_cases hi : i < rows.length
    · rw [manualOnly_lt false (hgeto i hi), manualOnly_lt false (hget i hi), hperidx i hi]
    · rw [manualOnly_oob false (by omega), manualOnly_oob false (by omega)]
  have hak : accountKeys ctx out = accountKeys ctx rows := by
    rw [hout]
    exact accountKeys_buildOutput ctx _ rows
  have hgi : groupIdxs ctx out = groupIdxs ctx rows := by
    rw [hout]
    exact groupIdxs_buildOutput ctx _ rows
  have hlsk : lootSortKey ctx out = lootSortKey ctx rows := by
    rw [hout]
    exact lootSortKey_buildOutput ctx _ rows
  simp only [runEngine]
  rw [hak, hgi, hlsk, hman2, hinit2]
  rw [outerSim hrowD hnorm (accountKeys ctx rows) (initAssign false rows)
    (accountKeys_nodup ctx rows) (accountKeys_toons_clean hg rows) hfold]
  simp only [Option.map_some']
  have hidem : (fun i => resolveOne ctx (resolveOne ctx (F i)))
      = (fun i => resolveOne ctx (F i)) := funext fun i => resolveOne_idem ctx (F i)
  rw [hidem, hout, buildOutput_absorb,
    buildCounts_length_congr ctx (buildOutput_length _ rows) _, ← hcounts]

/-- C4 counterexample: incremental re-running is not idempotent in
general.  `rowsIdem` holds a prior assignment whose `assigned_via_magelo`
column is empty: the first run folds it as a non-manual existing
assignment (consuming the sole cloak), so the second row stays
unassigned; the output rewrites the via flag to `0`, which the second run
reads as a legacy manual row, skips in the counter fold of its account
order — and the re-decided second row is then assigned.  The second run's
ledger differs from the first run's. -/
theorem c4_two_runs_differ :
    ((runEngine ctxA false rowsIdem).bind (fun p1 =>
      (runEngine ctxA false p1.1).map (fun p2 => decide (p2.1 = p1.1)))) = some false := by
  decide

/-- Witness for `c4_incremental_idempotent` on the Scenario B run: the
directory is well-formed, the input rows carry no via flags, and re-running
the engine on the produced ledger reproduces it. -/
theorem c4_incremental_idempotent_witness :
    ∃ out counts, runEngine ctxB false rowsB = some (out, counts) ∧
      runEngine ctxB false out = some (out, counts) := by
  match hh : runEngine ctxB false rowsB with
  | some (out, counts) =>
    exact ⟨out, counts, rfl, c4_incremental_idempotent ctxB rowsB out counts
      (by unfold ctxGood cleanStr; decide)
      (by unfold rowGoodVia; decide)
      (by decide) hh⟩
  | none => exact absurd hh (by decide)
